import Mathlib

/-!
Verification development for the OIC Digital Economy Index pipeline.

The definitions below are a shallow embedding of the repository's core:
* `convert_excel_to_json.py` — the Normalizer (spreadsheet rows → country
  entity graphs with derived rank fields);
* `src/load_to_db.py` — the Store Loader (`load_data_into_db`);
* `profile_generator.py` — the Analytics Layer (read-only queries).

Numeric cells are modelled over `ℚ`; Python `float`/`int`/pandas rounding and
ranking conventions are embedded explicitly (`pyRound` is round-half-to-even,
`pyTrunc` truncates toward zero, `rankMinDesc` is pandas
`rank(ascending=False, method="min")`).  Fallible steps (a non-numeric cell
where the script would raise, the loader's `fetchone()[0]`) return `Option`.
-/

namespace OIC

/-- Raw spreadsheet cell values as seen by the conversion script.
`num q` stands for any Python value that `float()` maps to the finite value
`q` (ints, floats, bools); `nan` is a float NaN; `noneV` is Python `None`;
`nonNum` is any value on which `float()` and `int()` raise
`TypeError`/`ValueError` (e.g. a non-numeric string). -/
inductive RawCell
  | noneV
  | num (q : ℚ)
  | nan
  | nonNum
deriving DecidableEq, Repr

/-- Result of Python `float(v)`: a finite value, a NaN, or an exception. -/
inductive FloatRes
  | val (q : ℚ)
  | nanRes
  | err
deriving DecidableEq, Repr

/-- Python `float(v)` on a raw cell. -/
def pyFloat : RawCell → FloatRes
  | .noneV => .err
  | .num q => .val q
  | .nan => .nanRes
  | .nonNum => .err

/-- `safe_float` from `convert_excel_to_json.py`:
`None` → `0.0`; otherwise `try: f = float(v); return 0.0 if isnan(f) else f`
with `TypeError`/`ValueError` caught and mapped to `0.0`. -/
def safe_float (v : RawCell) : ℚ :=
  match v with
  | .noneV => 0
  | w =>
    match pyFloat w with
    | .val q => q
    | .nanRes => 0
    | .err => 0

/-- Round-half-to-even of the fraction `a / b` (for `b > 0`), written on
numerator and denominator: `f = ⌊a/b⌋`, and the fractional part `(a-fb)/b`
is compared against `1/2` by comparing `2(a-fb)` against `b`. -/
def roundHE (a b : ℤ) : ℤ :=
  let f := a.fdiv b
  let r2 := 2 * (a - f * b)
  if r2 < b then f
  else if b < r2 then f + 1
  else if f % 2 = 0 then f else f + 1

/-- Python `round(x)` (no digits): round half to even, result an integer. -/
def pyRound (q : ℚ) : ℤ := roundHE q.num q.den

/-- `round(x, 2)` — two decimal places, half to even:
the half-even rounding of `100·x`, divided by `100`. -/
def round2 (q : ℚ) : ℚ := mkRat (roundHE (q.num * 100) q.den) 100

/-- pandas `.round(1)` — one decimal place, half to even. -/
def round1 (q : ℚ) : ℚ := mkRat (roundHE (q.num * 10) q.den) 10

/-- Python `int(x)` on a number: truncation toward zero. -/
def pyTrunc (q : ℚ) : ℤ := if q < 0 then -⌊-q⌋ else ⌊q⌋

/-- One entry of the `PILLAR_STRUCTURE` catalog of `convert_excel_to_json.py`. -/
structure PillarInfo where
  pillar_name : String
  dimension : String
  pillar_short : String
  total_col : String
  sub_cols : List (String × String)
deriving DecidableEq, Repr

/-- The fixed 9-pillar schema catalog, in source order. -/
def PILLAR_STRUCTURE : List PillarInfo := [
  { pillar_name := "First Pillar: Institutions"
    dimension := "Digital Foundation"
    pillar_short := "Institutions"
    total_col := "1"
    sub_cols := [
      ("1.1.1", "Political Environment"),
      ("1.1.2", "Political Stability and Security"),
      ("1.1.3", "Government Effectiveness"),
      ("1.1", "Voice and Accountability"),
      ("1.2.1", "Regulatory Environment"),
      ("1.2.2", "Regulatory Quality"),
      ("1.2.3", "Rule of Law"),
      ("1.2", "Control of Corruption"),
      ("1.3.1", "Technology Governance"),
      ("1.3.2", "Secure Internet Servers"),
      ("1.3.3", "E-Security"),
      ("1.3.4", "Online Shopping"),
      ("1.3.5", "ICT Regulatory Environment"),
      ("1.3.6", "Regulation of Emerging Technologies"),
      ("1.3.7", "E-commerce Legislation"),
      ("1.3", "Protection of content privacy under the law")] },
  { pillar_name := "Second Pillar: Infrastructure"
    dimension := "Digital Foundation"
    pillar_short := "Infrastructure"
    total_col := "2"
    sub_cols := [
      ("2.1", "Access to ICT"),
      ("2.2", "Use of ICT"),
      ("2.3.1", "Technological Inclusion"),
      ("2.3.2", "E-Participation"),
      ("2.3.3", "Socioeconomic gap in the use of digital payments"),
      ("2.3.4", "Availability of local content online"),
      ("2.3.5", "Gender gap in internet use"),
      ("2.3", "Rural gap in the use of digital payments"),
      ("2.4", "Logistical Performance")] },
  { pillar_name := "Third Pillar: Workforce"
    dimension := "Digital Works"
    pillar_short := "Workforce"
    total_col := "3"
    sub_cols := [
      ("3.1", "Expenditure on education as a % of GDP"),
      ("3.2", "Knowledge-intensive employment %"),
      ("3.3", "ICT skills in the education system")] },
  { pillar_name := "Fourth Pillar: E-Government"
    dimension := "E-Government"
    pillar_short := "E-Government"
    total_col := "4"
    sub_cols := [
      ("4.1", "Government services online"),
      ("4.2", "Telecommunication Infrastructure"),
      ("4.3", "Human Capital Component")] },
  { pillar_name := "Fifth Pillar: Innovation"
    dimension := "Innovation"
    pillar_short := "Innovation"
    total_col := "5"
    sub_cols := [
      ("5.1", "Percentage of total R&D expenditure financed by the business sector"),
      ("5.2", "University-industry collaboration in R&D"),
      ("5.3", "Knowledge impact"),
      ("5.4", "Knowledge absorption")] },
  { pillar_name := "Sixth Pillar: Future Technologies"
    dimension := "Readiness in digital\nfor the citizen"
    pillar_short := "Future Technologies"
    total_col := "6"
    sub_cols := [
      ("6.1", "Adoption of emerging technologies"),
      ("6.2", "Investment in emerging technologies"),
      ("6.3", "Artificial Intelligence (AI) strategy")] },
  { pillar_name := "Seventh Pillar: Market Development and Sophistication"
    dimension := "Market Development and Sophistication"
    pillar_short := "Market Development\nand Sophistication"
    total_col := "7"
    sub_cols := [
      ("7.1", "Financing of startups and ease of access"),
      ("7.2", "Domestic credit to private sector, % of GDP"),
      ("7.3", "Diversification of local industry")] },
  { pillar_name := "Eighth Pillar: Financial Market Development"
    dimension := "Financial Market Development"
    pillar_short := "Financial Market\nDevelopment"
    total_col := "8"
    sub_cols := [
      ("8.1.1", "FinTech and Financial Inclusion"),
      ("8.1.2", "Percentage of population (age 15+) who own bank accounts"),
      ("8.1.3", "Percentage (age 15+) who own a debit or credit card"),
      ("8.1", "Percentage (age 15+) who have made or received a digital payment"),
      ("8.2", "Market capitalization as a % of GDP")] },
  { pillar_name := "Ninth Pillar: Sustainable Development Goals"
    dimension := "Sustainable Development"
    pillar_short := "Sustainable\nDevelopment"
    total_col := "9"
    sub_cols := [
      ("9.1", "Goal 1: No Poverty"),
      ("9.2", "Goal 2: Zero Hunger"),
      ("9.3", "Goal 3: Good Health and Well-being"),
      ("9.4", "Goal 4: Quality Education"),
      ("9.5", "Goal 8: Decent Work and Economic Growth"),
      ("9.6", "Goal 9: Industry, Innovation and Infrastructure"),
      ("9.7", "Goal 17: Partnerships for the Goals")] }]

/-- The nine canonical pillar labels, in catalog order. -/
def canonicalPillarNames : List String := PILLAR_STRUCTURE.map (·.pillar_name)

/-- Python `str.strip()`: drop leading and trailing whitespace. -/
def pyStrip (s : String) : String :=
  ⟨((s.data.dropWhile Char.isWhitespace).reverse.dropWhile Char.isWhitespace).reverse⟩

/-- One spreadsheet row (post column-header normalisation): the `Country`
cell plus the remaining cells keyed by column code. -/
structure Row where
  country : String
  cells : List (String × RawCell)
deriving DecidableEq, Repr

/-- `row.get(code, dflt)`. -/
def Row.get (r : Row) (code : String) (dflt : RawCell) : RawCell :=
  match r.cells.lookup code with
  | some v => v
  | none => dflt

/-- The numeric content of a cell, if it is a (non-NaN) number. -/
def cellNum : RawCell → Option ℚ
  | .num q => some q
  | _ => none

/-- Map a fallible function over a list, failing if any element fails. -/
def optMap {α β : Type} (f : α → Option β) : List α → Option (List β)
  | [] => some []
  | a :: l =>
    match f a, optMap f l with
    | some b, some bs => some (b :: bs)
    | _, _ => none

/-- pandas `Series.rank(ascending=False, method="min")` evaluated at `x`:
one plus the number of column entries strictly greater than `x`. -/
def rankMinDesc (col : List ℚ) (x : ℚ) : ℕ :=
  1 + col.countP (fun s => decide (x < s))

/-- The raw values of one pillar-total column; `none` when some cell is not a
plain number (there `df[col].rank(...).astype(int)` raises). -/
def pillarColumn (df : List Row) (col : String) : Option (List ℚ) :=
  optMap (fun r => cellNum (r.get col .noneV)) df

/-- The `_rank_{col}` value of row `r` (step 4 of the conversion script). -/
def rankOfRow (df : List Row) (col : String) (r : Row) : Option ℕ := do
  let colVals ← pillarColumn df col
  let x ← cellNum (r.get col .noneV)
  pure (rankMinDesc colVals x)

/-- `df.loc[df["Country"] == row["Country"], f"_rank_{tcol}"].iloc[0]`:
the rank cell of the first row whose `Country` equals this row's. -/
def dimRankLookup (df : List Row) (col : String) (r : Row) : Option ℕ := do
  let r0 ← df.find? (fun r2 => r2.country == r.country)
  rankOfRow df col r0

/-- `int(row.get("Rank", 0)) if pd.notna(row.get("Rank", None)) else 0`.
`none` when the cell is a value on which `int()` raises. -/
def adeiRankCell : RawCell → Option ℤ
  | .num q => some (pyTrunc q)
  | .nan => some 0
  | .noneV => some 0
  | .nonNum => none

structure SubPillarJson where
  name : String
  score : ℚ
deriving DecidableEq, Repr

structure PillarJson where
  pillar_name : String
  total_pillar_score : ℚ
  sub_pillars : List SubPillarJson
deriving DecidableEq, Repr

structure DimSummaryJson where
  dimension : String
  pillar : String
  value : ℤ
  rank : ℕ
deriving DecidableEq, Repr

/-- One element of the interchange JSON (the Normalizer → Loader seam). -/
instance : Inhabited DimSummaryJson := ⟨⟨"", "", 0, 0⟩⟩

structure CountryJson where
  country_name : String
  overall_adei_score : ℤ
  overall_adei_rank : ℤ
  dimension_summary : List DimSummaryJson
  detailed_pillars : List PillarJson
deriving DecidableEq, Repr

instance : Inhabited CountryJson := ⟨⟨"", 0, 0, [], []⟩⟩

/-- Stable insertion into a list sorted ascending on `key`. -/
def ordInsert {α β : Type} [LinearOrder β] (key : α → β) (a : α) : List α → List α
  | [] => [a]
  | b :: l => if key a ≤ key b then a :: b :: l else b :: ordInsert key a l

/-- Stable sort ascending on `key` (models Python's stable sorts and SQL
`ORDER BY` read through a deterministic refinement). -/
def sortOn {α β : Type} [LinearOrder β] (key : α → β) : List α → List α
  | [] => []
  | a :: l => ordInsert key a (sortOn key l)

/-- The `dimension_summary` list built for row `r` (step 5, first inner loop). -/
def buildDims (df : List Row) (r : Row) : Option (List DimSummaryJson) :=
  optMap (fun info => do
    let rk ← dimRankLookup df info.total_col r
    pure { dimension := info.dimension
           pillar := info.pillar_short
           value := pyRound (safe_float (r.get info.total_col (.num 0)))
           rank := rk : DimSummaryJson }) PILLAR_STRUCTURE

/-- The `detailed_pillars` list built for row `r` (step 5, second inner loop). -/
def buildPillars (r : Row) : List PillarJson :=
  PILLAR_STRUCTURE.map (fun info =>
    { pillar_name := info.pillar_name
      total_pillar_score := round2 (safe_float (r.get info.total_col (.num 0)))
      sub_pillars := info.sub_cols.map (fun sc =>
        { name := sc.2, score := round2 (safe_float (r.get sc.1 (.num 0))) }) })

/-- The body of the country-building loop (step 5 of the conversion script)
for one row `r` of the frame `df`. -/
def buildCountry (df : List Row) (r : Row) : Option CountryJson := do
  let adei_rank ← adeiRankCell (r.get "Rank" .noneV)
  let dims ← buildDims df r
  pure
    { country_name := pyStrip r.country
      overall_adei_score := pyRound (safe_float (r.get "ADEI" (.num 0)))
      overall_adei_rank := adei_rank
      dimension_summary := dims
      detailed_pillars := buildPillars r }

/-- The Normalizer on a whole frame: build every country, then
`all_countries.sort(key=lambda x: x["overall_adei_rank"])`. -/
def processBatch (df : List Row) : Option (List CountryJson) := do
  let l ← optMap (buildCountry df) df
  pure (sortOn (fun c => c.overall_adei_rank) l)

/-! ### The relational store and the Store Loader (`src/load_to_db.py`) -/

structure CountryRowDB where
  id : ℕ
  name : String
  adei_score : ℤ
  adei_rank : ℤ
deriving DecidableEq, Repr

instance : Inhabited CountryRowDB := ⟨⟨0, "", 0, 0⟩⟩

structure DimSummaryRowDB where
  id : ℕ
  country_id : ℕ
  dimension : String
  pillar : String
  value : ℤ
  rank : ℕ
deriving DecidableEq, Repr

structure PillarRowDB where
  id : ℕ
  country_id : ℕ
  pillar_name : String
  total_pillar_score : ℚ
deriving DecidableEq, Repr

structure SubPillarRowDB where
  id : ℕ
  pillar_id : ℕ
  name : String
  score : ℚ
deriving DecidableEq, Repr

/-- The four-table store (`countries`, `dimension_summaries`, `pillars`,
`sub_pillars`), each table a list of rows in insertion (rowid) order. -/
structure DB where
  countries : List CountryRowDB
  dimension_summaries : List DimSummaryRowDB
  pillars : List PillarRowDB
  sub_pillars : List SubPillarRowDB
deriving DecidableEq, Repr

def emptyDB : DB := ⟨[], [], [], []⟩

/-- The next `AUTOINCREMENT` id for a table whose rows carry the given ids. -/
def nextIdOf (ids : List ℕ) : ℕ := ids.foldr max 0 + 1

def maxCid (db : DB) : ℕ := (db.countries.map (·.id)).foldr max 0
def maxDid (db : DB) : ℕ := (db.dimension_summaries.map (·.id)).foldr max 0
def maxPid (db : DB) : ℕ := (db.pillars.map (·.id)).foldr max 0
def maxSid (db : DB) : ℕ := (db.sub_pillars.map (·.id)).foldr max 0

/-- Insert the `pillars` and `sub_pillars` rows of one country, threading the
two id counters exactly as consecutive `INSERT`s would (`cursor.lastrowid`
after each successful pillar insert is that pillar's fresh id). -/
def buildPillarRows (cid : ℕ) (p0 s0 : ℕ) :
    List PillarJson → List PillarRowDB × List SubPillarRowDB
  | [] => ([], [])
  | pj :: rest =>
    let prow : PillarRowDB := ⟨p0, cid, pj.pillar_name, pj.total_pillar_score⟩
    let srows := (List.enumFrom s0 pj.sub_pillars).map
      (fun is => (⟨is.1, p0, is.2.name, is.2.score⟩ : SubPillarRowDB))
    let pr := buildPillarRows cid (p0 + 1) (s0 + pj.sub_pillars.length) rest
    (prow :: pr.1, srows ++ pr.2)

/-- The `countries` table after `INSERT OR IGNORE` of one entry: unchanged
when a row with that name exists, else the entry appended under a fresh id. -/
def csAfter (db : DB) (e : CountryJson) : List CountryRowDB :=
  if db.countries.any (fun c => c.name == e.country_name) then db.countries
  else db.countries ++
    [⟨maxCid db + 1, e.country_name, e.overall_adei_score, e.overall_adei_rank⟩]

/-- The `dimension_summaries` rows inserted for one entry under country id
`cid`. -/
def dimRowsFor (db : DB) (cid : ℕ) (e : CountryJson) : List DimSummaryRowDB :=
  (List.enumFrom (maxDid db + 1) e.dimension_summary).map
    (fun id_ => (⟨id_.1, cid, id_.2.dimension, id_.2.pillar, id_.2.value,
                  id_.2.rank⟩ : DimSummaryRowDB))

/-- Process one JSON entry inside `load_data_into_db`:
`INSERT OR IGNORE` into `countries`, re-`SELECT` the country id by name
(`fetchone()[0]` raising — `none` — if no row came back), then insert the
entry's dimension summaries, pillars and sub-pillars. -/
def insertEntry (db : DB) (e : CountryJson) : Option DB :=
  match (csAfter db e).find? (fun c => c.name == e.country_name) with
  | none => none
  | some c =>
    some { countries := csAfter db e
           dimension_summaries := db.dimension_summaries ++ dimRowsFor db c.id e
           pillars :=
             db.pillars ++
               (buildPillarRows c.id (maxPid db + 1) (maxSid db + 1) e.detailed_pillars).1
           sub_pillars :=
             db.sub_pillars ++
               (buildPillarRows c.id (maxPid db + 1) (maxSid db + 1) e.detailed_pillars).2 }

/-- `load_data_into_db` of `src/load_to_db.py`, relative to whatever store is
currently at the target location (the function connects to an existing file
and only runs `CREATE TABLE IF NOT EXISTS`; it never deletes the store). -/
def load_data_into_db (db : DB) : List CountryJson → Option DB
  | [] => some db
  | e :: rest =>
    match insertEntry db e with
    | none => none
    | some db1 => load_data_into_db db1 rest

/-- The dimension-summary rows of country id `cid`, in rowid order. -/
def dimsOfC (db : DB) (cid : ℕ) : List DimSummaryRowDB :=
  db.dimension_summaries.filter (fun d => d.country_id == cid)

/-- The pillar rows of country id `cid`, in rowid order. -/
def pilsOfC (db : DB) (cid : ℕ) : List PillarRowDB :=
  db.pillars.filter (fun p => p.country_id == cid)

/-- The sub-pillar rows of pillar id `pid`, in rowid order. -/
def subsOfP (db : DB) (pid : ℕ) : List SubPillarRowDB :=
  db.sub_pillars.filter (fun s => s.pillar_id == pid)

/-- The payload of a dimension-summary row, ids dropped. -/
def dsKey (d : DimSummaryRowDB) : String × String × ℤ × ℕ :=
  (d.dimension, d.pillar, d.value, d.rank)

def dsKeyJ (d : DimSummaryJson) : String × String × ℤ × ℕ :=
  (d.dimension, d.pillar, d.value, d.rank)

/-- The payload of a pillar row, ids dropped. -/
def pKey (p : PillarRowDB) : String × ℚ := (p.pillar_name, p.total_pillar_score)

def pKeyJ (p : PillarJson) : String × ℚ := (p.pillar_name, p.total_pillar_score)

/-- The payload of a sub-pillar row, ids dropped. -/
def spKey (s : SubPillarRowDB) : String × ℚ := (s.name, s.score)

def spKeyJ (s : SubPillarJson) : String × ℚ := (s.name, s.score)

/-- Well-formedness of a store state maintained by the loader: country ids
and names are duplicate-free, and every child row's foreign key is bounded
by the current maximum id of its parent table. -/
def DBInv (db : DB) : Prop :=
  (db.countries.map (·.id)).Nodup ∧
  (db.countries.map (·.name)).Nodup ∧
  (∀ d ∈ db.dimension_summaries, d.country_id ≤ maxCid db) ∧
  (∀ p ∈ db.pillars, p.country_id ≤ maxCid db) ∧
  (∀ s ∈ db.sub_pillars, s.pillar_id ≤ maxPid db)

/-! ### The Analytics Layer (`profile_generator.py`) -/

/-- `str.replace(r'^\w+\sPillar:\s', '', regex=True)` on a pillar label:
strip a single leading word followed by literal " Pillar: ". -/
def cleanPillar (s : String) : String :=
  match s.splitOn " Pillar: " with
  | [w, rest] =>
    if w != "" && w.all (fun ch => ch.isAlphanum || ch == '_') then rest else s
  | _ => s

/-- `FROM pillars p JOIN countries c ON p.country_id = c.id`. -/
def joinPillarsCountries (db : DB) : List (CountryRowDB × PillarRowDB) :=
  db.pillars.flatMap (fun p =>
    (db.countries.filter (fun c => c.id == p.country_id)).map (fun c => (c, p)))

/-- One row of the sub-pillar profile query:
(pillar label, indicator name, score). -/
structure SubRow where
  pillar_name : String
  indicator : String
  score : ℚ
deriving DecidableEq, Repr

/-- Result of `get_country_profile_data`. -/
structure ProfileResult where
  main_stats : List (ℤ × ℤ)
  pillars_df : List (String × ℚ)
  sub_pillars_df : List SubRow
deriving DecidableEq, Repr

/-- The three-way join of the sub-pillars profile query, with the row ids
used by its `ORDER BY p.id, sp.id`. -/
def subJoin (db : DB) (name : String) : List (ℕ × ℕ × SubRow) :=
  db.sub_pillars.flatMap (fun sp =>
    (db.pillars.filter (fun p => p.id == sp.pillar_id)).flatMap (fun p =>
      (db.countries.filter (fun c => c.id == p.country_id && c.name == name)).map
        (fun _ => (p.id, sp.id, ⟨p.pillar_name, sp.name, sp.score⟩))))

/-- `get_country_profile_data(country_name)`: main stats, the pillar rows and
the sub-indicator rows (the latter ordered by pillar id then sub-pillar id),
pillar labels cleaned. -/
def get_country_profile_data (name : String) (db : DB) : ProfileResult :=
  { main_stats := (db.countries.filter (fun c => c.name == name)).map
      (fun c => (c.adei_score, c.adei_rank))
    pillars_df := ((joinPillarsCountries db).filter (fun cp => cp.1.name == name)).map
      (fun cp => (cleanPillar cp.2.pillar_name, cp.2.total_pillar_score))
    sub_pillars_df :=
      ((sortOn (fun t => t.1) (sortOn (fun t => t.2.1) (subJoin db name))).map
        (fun t => { t.2.2 with pillar_name := cleanPillar t.2.2.pillar_name })) }

/-- `get_leaderboard_data`: all countries ordered by `adei_rank` ascending;
`top_10 = df.head(10)`, `bottom_10 = df.tail(10).sort_values(by="adei_rank")`. -/
def get_leaderboard_data (db : DB) : List CountryRowDB × List CountryRowDB :=
  let sorted := sortOn (fun c => c.adei_rank) db.countries
  (sorted.take 10,
   sortOn (fun c => c.adei_rank) (sorted.drop (sorted.length - 10)))

/-- The static region table of `profile_generator.py`. -/
def COUNTRY_REGIONS : List (String × List String) := [
  ("GCC", ["United Arab Emirates", "Saudi Arabia", "Kuwait", "Qatar",
           "Bahrain", "Oman"]),
  ("North Africa", ["Morocco", "Algeria", "Tunisia", "Libya", "Egypt"]),
  ("East Africa", ["Somalia", "Djibouti", "Comoros", "Mozambique"]),
  ("West Africa", ["Nigeria", "Senegal", "Gambia", "Guinea", "Guinea-Bissau",
                   "Sierra Leone", "Burkina Faso", "Mali", "Niger", "Chad",
                   "Togo", "Benin", "Cote d'Ivoire"]),
  ("Central Africa", ["Cameroon", "Gabon", "Equatorial Guinea"]),
  ("Middle East & Levant", ["Jordan", "Iraq", "Syrian Arab Republic", "Yemen",
                            "Palestine", "Lebanon", "Iran, Islamic Rep."]),
  ("South Asia", ["Pakistan", "Bangladesh", "Afghanistan", "Maldives"]),
  ("Southeast Asia", ["Malaysia", "Indonesia", "Brunei Darussalam"]),
  ("Central & West Asia", ["Kazakhstan", "Kyrgyzstan", "Tajikistan",
                           "Turkmenistan", "Uzbekistan", "Azerbaijan", "Turkey"]),
  ("Europe & Americas", ["Albania", "Suriname", "Guyana"])]

/-- `get_country_region`: first region whose member list contains the name,
else "Other". -/
def get_country_region (name : String) : String :=
  match COUNTRY_REGIONS.find? (fun rc => rc.2.contains name) with
  | some rc => rc.1
  | none => "Other"

/-- Keep the first row per key (`DataFrame.drop_duplicates(subset=...)`). -/
def dedupByKey {α : Type} (key : α → String) (seen : List String) :
    List α → List α
  | [] => []
  | a :: l =>
    if seen.contains (key a) then dedupByKey key seen l
    else a :: dedupByKey key (key a :: seen) l

/-- Rational addition written out on numerators and denominators (provably
equal to `+`; see `qadd_eq_add`). -/
def qadd (a b : ℚ) : ℚ := mkRat (a.num * b.den + b.num * a.den) (a.den * b.den)

/-- Sum of a list of rationals via `qadd` (provably `List.sum`). -/
def qsum (l : List ℚ) : ℚ := l.foldr qadd 0

/-- Arithmetic mean of a list of rationals (only used on nonempty lists);
provably `l.sum / l.length`, see `ratMean_eq`. -/
def ratMean (l : List ℚ) : ℚ := mkRat (qsum l).num ((qsum l).den * l.length)

/-- One output row of the regional ADEI aggregation. -/
structure RegionAgg where
  region : String
  avg_adei : ℚ
  country_count : ℕ
deriving DecidableEq, Repr

/-- The distinct country rows reaching the regional aggregation: the
pillars×countries join projected to countries, first row kept per name. -/
def adeiRowsOf (db : DB) : List CountryRowDB :=
  dedupByKey (fun c => c.name) [] ((joinPillarsCountries db).map (·.1))

/-- The rows of one region group in the regional aggregation. -/
def regionRowsOf (db : DB) (rg : String) : List CountryRowDB :=
  (adeiRowsOf db).filter (fun c => get_country_region c.name == rg)

/-- The ADEI half of `get_regional_aggregation`: per region of the joined,
name-deduplicated country rows, the member count and the mean `adei_score`
rounded to one decimal (`.agg(avg_adei='mean', country_count='count').round(1)`). -/
def get_regional_aggregation (db : DB) : List RegionAgg :=
  (((adeiRowsOf db).map (fun c => get_country_region c.name)).dedup).map (fun rg =>
    { region := rg
      avg_adei := round1 (ratMean ((regionRowsOf db rg).map (fun c => (c.adei_score : ℚ))))
      country_count := (regionRowsOf db rg).length })

/-- One row of the strengths/weaknesses query result. -/
structure SWRow where
  indicator : String
  score : ℚ
  pillar_name : String
deriving DecidableEq, Repr

/-- The base rows of `get_country_strengths_weaknesses` (before ordering):
sub-pillar indicators of the given country, pillar labels cleaned. -/
def swBase (name : String) (db : DB) : List SWRow :=
  db.sub_pillars.flatMap (fun sp =>
    (db.pillars.filter (fun p => p.id == sp.pillar_id)).flatMap (fun p =>
      (db.countries.filter (fun c => c.id == p.country_id && c.name == name)).map
        (fun _ => ⟨sp.name, sp.score, cleanPillar p.pillar_name⟩)))

/-- The strengths/weaknesses query result frame, ordered by score
descending (`ORDER BY sp.score DESC`, read through a stable refinement). -/
def swSorted (name : String) (db : DB) : List SWRow :=
  sortOn (fun r => -r.score) (swBase name db)

/-- `get_country_strengths_weaknesses(country_name, top_n)`: rows ordered by
score descending; `strengths = df.head(top_n)`,
`weaknesses = df.tail(top_n).sort_values('score')`. -/
def get_country_strengths_weaknesses (name : String) (db : DB) (top_n : ℕ) :
    List SWRow × List SWRow :=
  ((swSorted name db).take top_n,
   sortOn (fun r => r.score)
     ((swSorted name db).drop ((swSorted name db).length - top_n)))

/-! ### Concrete instances used in counterexamples and witnesses -/

/-- Cells all holding plain numbers. -/
def cellsOf (l : List (String × ℚ)) : List (String × RawCell) :=
  l.map (fun p => (p.1, RawCell.num p.2))

/-- A row with the nine pillar-total columns, a `Rank` cell and an `ADEI`
cell; pillar column "1" carries `v1`, the other pillar totals are zero. -/
def baseCols (v1 rk adei : ℚ) : List (String × RawCell) :=
  cellsOf [("1", v1), ("2", 0), ("3", 0), ("4", 0), ("5", 0), ("6", 0),
           ("7", 0), ("8", 0), ("9", 0), ("Rank", rk), ("ADEI", adei)]

/-- One country scoring ADEI 90 whose input `Rank` cell holds 7. -/
def dfC1 : List Row := [⟨"A", baseCols 0 7 90⟩]

/-- Three rows, two sharing the country name "A" with different pillar-1
totals (10 and 50); "B" has pillar-1 total 30. -/
def dfC4 : List Row :=
  [⟨"A", baseCols 10 1 0⟩, ⟨"A", baseCols 50 2 0⟩, ⟨"B", baseCols 30 3 0⟩]

/-- A two-row frame with distinct names (witness input). -/
def dfW : List Row := [⟨"A", baseCols 10 2 80⟩, ⟨"B", baseCols 50 1 90⟩]

/-- A one-country entity graph with a single pillar and sub-indicator. -/
def entryA : CountryJson :=
  ⟨"A", 50, 1, [],
   [⟨"First Pillar: Institutions", 50, [⟨"Political Environment", 50⟩]⟩]⟩

/-- An input list with a duplicated country name. -/
def inputDup : List CountryJson :=
  [entryA,
   ⟨"A", 60, 2, [⟨"Digital Foundation", "Institutions", 50, 1⟩],
    [⟨"Second Pillar: Infrastructure", 10, []⟩]⟩,
   ⟨"B", 30, 3, [], []⟩]

/-- Twenty countries whose `adei_rank` values are 1..18, 19, 19. -/
def dbTie20 : DB :=
  ⟨(List.range 20).map (fun i =>
      ⟨i + 1, toString i, 0, if i < 19 then (i : ℤ) + 1 else 19⟩),
   [], [], []⟩

/-- Twenty countries with the distinct ranks 1..20. -/
def dbRanks20 : DB :=
  ⟨(List.range 20).map (fun i => ⟨i + 1, toString i, 0, (i : ℤ) + 1⟩),
   [], [], []⟩

def gccNames : List String :=
  ["United Arab Emirates", "Saudi Arabia", "Kuwait", "Qatar", "Bahrain", "Oman"]

/-- Six GCC countries, one of them with `adei_score` 1, the rest 0, each with
one pillar row (so each participates in the regional join). -/
def dbGCC6 : DB :=
  ⟨(List.enumFrom 1 gccNames).map (fun p => ⟨p.1, p.2, if p.1 = 1 then 1 else 0, (p.1 : ℤ)⟩),
   [],
   (List.range 6).map (fun i => ⟨i + 1, i + 1, "First Pillar: Institutions", 0⟩),
   []⟩

/-- One GCC country with one pillar row. -/
def dbQatar : DB :=
  ⟨[⟨1, "Qatar", 70, 1⟩], [], [⟨1, 1, "First Pillar: Institutions", 50⟩], []⟩

/-- A store holding only the country "B". -/
def dbB : DB :=
  ⟨[⟨1, "B", 40, 2⟩], [⟨1, 1, "Digital Foundation", "Institutions", 40, 2⟩],
   [⟨1, 1, "First Pillar: Institutions", 40⟩], [⟨1, 1, "Political Environment", 40⟩]⟩

/-- A store where country "A" exists but has no pillar or sub-pillar rows. -/
def dbNoSubs : DB := ⟨[⟨1, "A", 10, 1⟩], [], [], []⟩

/-- A store where country "A" has three sub-indicators scoring 1, 2, 3. -/
def dbSubs3 : DB :=
  ⟨[⟨1, "A", 10, 1⟩], [],
   [⟨1, 1, "First Pillar: Institutions", 10⟩],
   [⟨1, 1, "Political Environment", 1⟩, ⟨2, 1, "Regulatory Quality", 2⟩,
    ⟨3, 1, "Rule of Law", 3⟩]⟩

/-- The store after one load of `[entryA]` into an empty store. -/
def db1A : DB := (load_data_into_db emptyDB [entryA]).getD emptyDB

/-- The store after re-loading `[entryA]` into `db1A` (no discard happens). -/
def db2A : DB := (load_data_into_db db1A [entryA]).getD emptyDB

/-- Normalizer output of the two-row frame `dfW`. -/
def outW : List CountryJson := (processBatch dfW).getD []

/-- The store loaded from `outW`. -/
def dbW : DB := (load_data_into_db emptyDB outW).getD emptyDB

/-- Reference (spec-side) selection for the regional aggregation: the member
countries of a region are the stored country rows assigned to that region
which own at least one pillar row (rows with no pillars never reach the
pillars×countries join). -/
def regionMembers (db : DB) (region : String) : List CountryRowDB :=
  db.countries.filter (fun c =>
    get_country_region c.name == region &&
      db.pillars.any (fun p => p.country_id == c.id))

/-! ### Generic helper lemmas -/

theorem ordInsert_perm {α β : Type} [LinearOrder β] (key : α → β) (a : α) :
    ∀ l : List α, List.Perm (ordInsert key a l) (a :: l)
  | [] => List.Perm.refl _
  | b :: l => by
    unfold ordInsert
    split
    · exact List.Perm.refl _
    · exact ((ordInsert_perm key a l).cons b).trans (List.Perm.swap a b l)

theorem sortOn_perm {α β : Type} [LinearOrder β] (key : α → β) :
    ∀ l : List α, List.Perm (sortOn key l) l
  | [] => List.Perm.refl _
  | a :: l => (ordInsert_perm key a _).trans ((sortOn_perm key l).cons a)

theorem sortOn_length {α β : Type} [LinearOrder β] (key : α → β) (l : List α) :
    (sortOn key l).length = l.length :=
  (sortOn_perm key l).length_eq

theorem mem_sortOn {α β : Type} [LinearOrder β] {key : α → β} {l : List α} {a : α} :
    a ∈ sortOn key l ↔ a ∈ l :=
  (sortOn_perm key l).mem_iff

theorem ordInsert_pairwise {α β : Type} [LinearOrder β] (key : α → β) (a : α) :
    ∀ {l : List α}, l.Pairwise (fun x y => key x ≤ key y) →
      (ordInsert key a l).Pairwise (fun x y => key x ≤ key y)
  | [], _ => by simp [ordInsert]
  | b :: t, h => by
    unfold ordInsert
    split
    next hab =>
      refine List.pairwise_cons.2 ⟨?_, h⟩
      intro y hy
      rcases List.mem_cons.1 hy with rfl | hyt
      · exact hab
      · exact le_trans hab ((List.pairwise_cons.1 h).1 y hyt)
    next hab =>
      refine List.pairwise_cons.2 ⟨?_, ordInsert_pairwise key a (List.pairwise_cons.1 h).2⟩
      intro y hy
      rcases List.mem_cons.1 ((ordInsert_perm key a t).mem_iff.1 hy) with rfl | hyt
      · exact le_of_not_le hab
      · exact (List.pairwise_cons.1 h).1 y hyt

theorem sortOn_pairwise {α β : Type} [LinearOrder β] (key : α → β) :
    ∀ l : List α, (sortOn key l).Pairwise (fun x y => key x ≤ key y)
  | [] => List.Pairwise.nil
  | a :: l => ordInsert_pairwise key a (sortOn_pairwise key l)

theorem ordInsert_map {α γ β : Type} [LinearOrder β] (key : α → β) (key2 : γ → β)
    (f : α → γ) (hk : ∀ x, key2 (f x) = key x) (a : α) :
    ∀ l : List α, (ordInsert key a l).map f = ordInsert key2 (f a) (l.map f)
  | [] => rfl
  | b :: l => by
    by_cases hab : key a ≤ key b
    · simp [ordInsert, hab, hk]
    · simp [ordInsert, hab, hk, ordInsert_map key key2 f hk a l]

theorem sortOn_map {α γ β : Type} [LinearOrder β] (key : α → β) (key2 : γ → β)
    (f : α → γ) (hk : ∀ x, key2 (f x) = key x) :
    ∀ l : List α, (sortOn key l).map f = sortOn key2 (l.map f)
  | [] => rfl
  | a :: l => by
    simp only [sortOn, List.map_cons]
    rw [ordInsert_map key key2 f hk, sortOn_map key key2 f hk l]

theorem sortOn_eq_of_pairwise {α β : Type} [LinearOrder β] {key : α → β} :
    ∀ {l : List α}, l.Pairwise (fun x y => key x ≤ key y) → sortOn key l = l
  | [], _ => rfl
  | a :: t, h => by
    have ht := sortOn_eq_of_pairwise (List.pairwise_cons.1 h).2
    simp only [sortOn, ht]
    cases t with
    | nil => rfl
    | cons b t' =>
      have hab : key a ≤ key b := (List.pairwise_cons.1 h).1 b (List.mem_cons_self b t')
      simp [ordInsert, hab]

theorem optMap_forall₂ {α β : Type} {f : α → Option β} :
    ∀ {l : List α} {ys : List β}, optMap f l = some ys →
      List.Forall₂ (fun a y => f a = some y) l ys := by
  intro l
  induction l with
  | nil => intro ys h; cases h; exact List.Forall₂.nil
  | cons a t ih =>
    intro ys h
    unfold optMap at h
    rcases hfa : f a with _ | b <;> rw [hfa] at h
    · exact absurd h (by simp)
    · rcases hor : optMap f t with _ | bs <;> rw [hor] at h
      · exact absurd h (by simp)
      · cases h
        exact List.Forall₂.cons hfa (ih hor)

theorem forall₂_opt_mem {α β : Type} {f : α → Option β} {l : List α} {ys : List β}
    (h : List.Forall₂ (fun a y => f a = some y) l ys) :
    ∀ y ∈ ys, ∃ a ∈ l, f a = some y := by
  induction h with
  | nil => intro y hy; cases hy
  | cons hfa _ ih =>
    intro y hy
    rcases List.mem_cons.1 hy with rfl | hyt
    · exact ⟨_, List.mem_cons_self _ _, hfa⟩
    · rcases ih y hyt with ⟨a, ha, hfa'⟩
      exact ⟨a, List.mem_cons_of_mem _ ha, hfa'⟩

theorem optMap_some_mem {α β : Type} {f : α → Option β} {l : List α} {ys : List β}
    (h : optMap f l = some ys) : ∀ y ∈ ys, ∃ a ∈ l, f a = some y :=
  forall₂_opt_mem (optMap_forall₂ h)

theorem headI_mem_of_ne_nil {α : Type} [Inhabited α] :
    ∀ {l : List α}, l ≠ [] → l.headI ∈ l
  | [], h => absurd rfl h
  | a :: t, _ => List.mem_cons_self a t

theorem eq_some_getD {α : Type} {o : Option α} (d : α) (h : o.isSome = true) :
    o = some (o.getD d) := by
  cases o with
  | none => cases h
  | some a => rfl

theorem le_foldr_max {l : List ℕ} {a : ℕ} (h : a ∈ l) : a ≤ l.foldr max 0 := by
  induction l with
  | nil => cases h
  | cons b t ih =>
    rcases List.mem_cons.1 h with rfl | hat
    · exact le_max_left _ _
    · exact le_trans (ih hat) (le_max_right _ _)

/-! ### C9 — totality of `safe_float` -/

/-- C9: the safe-float conversion is total: it returns `0.0` for `None`, for
NaN and for any non-numeric value (anything on which `float()` raises), and
returns the numeric value itself for any input `float()` converts to a
non-NaN float. -/
theorem safe_float_total :
    safe_float .noneV = 0 ∧ safe_float .nan = 0 ∧ safe_float .nonNum = 0 ∧
    (∀ q : ℚ, safe_float (.num q) = q) ∧
    (∀ v : RawCell, pyFloat v = .err → safe_float v = 0) ∧
    (∀ v : RawCell, ∀ q : ℚ, pyFloat v = .val q → safe_float v = q) := by
  refine ⟨rfl, rfl, rfl, fun q => rfl, ?_, ?_⟩
  · intro v h; cases v <;> first | rfl | exact absurd h (by simp [pyFloat])
  · intro v q h
    cases v <;> simp [pyFloat] at h <;> simp [safe_float, pyFloat, h]

/-- C9 witness: the exception branch and the numeric branch, each applied at
a concrete cell. -/
theorem safe_float_total_witness :
    safe_float .nonNum = 0 ∧ safe_float (.num (7/2)) = 7/2 :=
  ⟨safe_float_total.2.2.2.2.1 .nonNum rfl,
   safe_float_total.2.2.2.2.2 (.num (7/2)) (7/2) rfl⟩

/-! ### C7 — unknown country name yields empty profile results -/

theorem mem_joinPillarsCountries {db : DB} {cp : CountryRowDB × PillarRowDB}
    (h : cp ∈ joinPillarsCountries db) : cp.1 ∈ db.countries := by
  rcases List.mem_flatMap.1 h with ⟨p, _, hcp⟩
  rcases List.mem_map.1 hcp with ⟨c, hc, rfl⟩
  exact List.mem_of_mem_filter hc

/-- C7: for a country name not present in the store, all three sub-queries of
the country profile return empty results (and, the model being total, no
exception is raised). -/
theorem profile_unknown_empty (db : DB) (name : String)
    (h : ∀ c ∈ db.countries, c.name ≠ name) :
    (get_country_profile_data name db).main_stats = [] ∧
    (get_country_profile_data name db).pillars_df = [] ∧
    (get_country_profile_data name db).sub_pillars_df = [] := by
  have hsub : subJoin db name = [] := by
    refine List.flatMap_eq_nil_iff.2 (fun sp _ => ?_)
    refine List.flatMap_eq_nil_iff.2 (fun p _ => ?_)
    have : db.countries.filter (fun c => c.id == p.country_id && c.name == name) = [] := by
      refine List.filter_eq_nil_iff.2 (fun c hc => ?_)
      simp only [Bool.and_eq_true, beq_iff_eq]
      rintro ⟨-, hn⟩
      exact h c hc hn
    rw [this]; rfl
  refine ⟨?_, ?_, ?_⟩
  · simp only [get_country_profile_data]
    rw [List.filter_eq_nil_iff.2 (fun c hc => by simpa using h c hc)]
    rfl
  · simp only [get_country_profile_data]
    rw [List.filter_eq_nil_iff.2
      (fun cp hcp => by simpa using h cp.1 (mem_joinPillarsCountries hcp))]
    rfl
  · simp only [get_country_profile_data, hsub]
    rfl

/-- C7 witness: querying "X" against a store holding only "B". -/
theorem profile_unknown_empty_witness :
    (get_country_profile_data "X" dbB).main_stats = [] ∧
    (get_country_profile_data "X" dbB).pillars_df = [] ∧
    (get_country_profile_data "X" dbB).sub_pillars_df = [] :=
  profile_unknown_empty dbB "X" (by decide)

/-! ### Inversion lemmas for the Normalizer -/

theorem buildCountry_eq_some {df : List Row} {r : Row} {c : CountryJson}
    (h : buildCountry df r = some c) :
    ∃ rk dims, adeiRankCell (r.get "Rank" .noneV) = some rk ∧
      buildDims df r = some dims ∧
      c = { country_name := pyStrip r.country
            overall_adei_score := pyRound (safe_float (r.get "ADEI" (.num 0)))
            overall_adei_rank := rk
            dimension_summary := dims
            detailed_pillars := buildPillars r } := by
  cases hrk : adeiRankCell (r.get "Rank" .noneV) with
  | none => rw [buildCountry] at h; rw [hrk] at h; exact absurd h (by simp)
  | some rk =>
    cases hdims : buildDims df r with
    | none =>
      rw [buildCountry] at h; rw [hrk, hdims] at h; exact absurd h (by simp)
    | some dims =>
      rw [buildCountry] at h; rw [hrk, hdims] at h
      exact ⟨rk, dims, rfl, rfl, by simpa using h.symm⟩

theorem processBatch_eq_some {df : List Row} {out : List CountryJson}
    (h : processBatch df = some out) :
    ∃ l, optMap (buildCountry df) df = some l ∧
      out = sortOn (fun c => c.overall_adei_rank) l := by
  cases hopt : optMap (buildCountry df) df with
  | none => rw [processBatch] at h; rw [hopt] at h; exact absurd h (by simp)
  | some l =>
    rw [processBatch] at h; rw [hopt] at h
    exact ⟨l, rfl, by simpa using h.symm⟩

theorem processBatch_mem {df : List Row} {out : List CountryJson}
    (h : processBatch df = some out) {c : CountryJson} (hc : c ∈ out) :
    ∃ r ∈ df, buildCountry df r = some c := by
  obtain ⟨l, hl, hout⟩ := processBatch_eq_some h
  exact optMap_some_mem hl c (by rw [hout] at hc; exact mem_sortOn.1 hc)

/-! ### C1 — the overall `adei_rank` is not computed by ranking -/

/-- C1 counterexample: on a batch holding a single country whose `ADEI`
score is 90 but whose input `Rank` cell holds 7, the Normalizer emits
`adei_rank = 7`, while the claimed dense-minimum ranking of the ADEI score
column would assign rank `1 + 0 = 1`. -/
theorem adei_rank_counterexample :
    (processBatch dfC1).map
        (fun l => l.map (fun c => (c.overall_adei_score, c.overall_adei_rank)))
      = some [(90, 7)] ∧
    rankMinDesc [90] 90 = 1 ∧ (7 : ℤ) ≠ 1 ∧
    ¬ (∀ out, processBatch dfC1 = some out → ∀ c ∈ out,
        c.overall_adei_rank =
          1 + ((out.map (·.overall_adei_score)).countP
            (fun s => decide (c.overall_adei_score < s)) : ℤ)) := by
  refine ⟨by decide, by decide, by decide, ?_⟩
  intro hall
  have h := hall ((processBatch dfC1).getD []) (eq_some_getD [] (by decide))
    (((processBatch dfC1).getD []).headI) (headI_mem_of_ne_nil (by decide))
  revert h
  decide

/-- C1 (amended): the Normalizer does not rank by ADEI score at all — each
output country's `overall_adei_rank` is copied from the input `Rank` cell
(truncated to an integer; `0` when that cell is missing or NaN), and
`overall_adei_score` is the rounded `ADEI` cell. -/
theorem adei_rank_from_input_rank (df : List Row) (out : List CountryJson)
    (h : processBatch df = some out) :
    ∀ c ∈ out, ∃ r ∈ df,
      c.country_name = pyStrip r.country ∧
      c.overall_adei_score = pyRound (safe_float (r.get "ADEI" (.num 0))) ∧
      adeiRankCell (r.get "Rank" .noneV) = some c.overall_adei_rank := by
  intro c hc
  obtain ⟨r, hr, hbc⟩ := processBatch_mem h hc
  obtain ⟨rk, dims, hrk, -, rfl⟩ := buildCountry_eq_some hbc
  exact ⟨r, hr, rfl, rfl, hrk⟩

/-- C1 amended witness: at the two-row frame `dfW`, the first output country
(the one ranked 1, namely "B") indeed carries exactly the `Rank` cell of its
input row. -/
theorem adei_rank_from_input_rank_witness :
    ∃ r ∈ dfW,
      (((processBatch dfW).getD []).headI).country_name = pyStrip r.country ∧
      (((processBatch dfW).getD []).headI).overall_adei_score
        = pyRound (safe_float (r.get "ADEI" (.num 0))) ∧
      adeiRankCell (r.get "Rank" .noneV)
        = some (((processBatch dfW).getD []).headI).overall_adei_rank :=
  adei_rank_from_input_rank dfW ((processBatch dfW).getD [])
    (eq_some_getD [] (by decide))
    (((processBatch dfW).getD []).headI)
    (headI_mem_of_ne_nil (by decide))

/-! ### C4 — dimension-summary ranks and the first-matching-name lookup -/

/-- C4 counterexample: on a batch where two rows share the country name "A"
(pillar-1 totals 10 and 50) and "B" has total 30, the record with total 50
receives dimension rank 3 — the rank of the *first* row named "A" — while
the claimed dense-minimum rank of its own score 50 is 1. -/
theorem dim_rank_counterexample :
    (processBatch dfC4).map (fun l => l.map (fun c =>
        (c.dimension_summary.map (fun d => (d.value, d.rank))).head?))
      = some [some (10, 3), some (50, 3), some (30, 2)] ∧
    pillarColumn dfC4 "1" = some [10, 50, 30] ∧
    rankMinDesc [10, 50, 30] 50 = 1 ∧ (3 : ℕ) ≠ 1 ∧
    ¬ (∀ out, processBatch dfC4 = some out → ∀ c ∈ out,
        (c.dimension_summary.headI).rank
          = rankMinDesc [10, 50, 30] ((c.dimension_summary.headI).value : ℚ)) := by
  refine ⟨by decide, by decide, by decide, by decide, ?_⟩
  intro hall
  have hmem : ((((processBatch dfC4).getD []).drop 1).headI) ∈
      ((processBatch dfC4).getD []) :=
    List.mem_of_mem_drop (headI_mem_of_ne_nil (by decide))
  have h := hall ((processBatch dfC4).getD []) (eq_some_getD [] (by decide))
    ((((processBatch dfC4).getD []).drop 1).headI) hmem
  revert h
  decide

theorem find?_country_self {df : List Row} {r : Row}
    (hnd : (df.map (·.country)).Nodup) (hr : r ∈ df) :
    df.find? (fun r2 => r2.country == r.country) = some r := by
  induction df with
  | nil => cases hr
  | cons a t ih =>
    have hnd' : a.country ∉ t.map (·.country) ∧ (t.map (·.country)).Nodup := by
      rw [List.map_cons, List.nodup_cons] at hnd; exact hnd
    rcases List.mem_cons.1 hr with rfl | hrt
    · simp [List.find?]
    · have hne : a.country ≠ r.country := by
        intro hEq
        exact hnd'.1 (hEq ▸ List.mem_map_of_mem (·.country) hrt)
      rw [List.find?]
      rw [show (a.country == r.country) = false from beq_eq_false_iff_ne.2 hne]
      exact ih hnd'.2 hrt

/-- C4 (amended): provided the batch's country names are pairwise distinct,
each record's nine `DimensionSummary.rank` values are exactly the
dense-minimum ranks (`1 +` count strictly greater) of that record's own
pillar totals within each pillar column.  (When names repeat, a record
instead inherits the ranks of the first row sharing its name, as the
counterexample shows.) -/
theorem dim_rank_amended (df : List Row) (out : List CountryJson)
    (h : processBatch df = some out)
    (hnd : (df.map (·.country)).Nodup) :
    ∀ c ∈ out, ∃ r ∈ df,
      c.country_name = pyStrip r.country ∧
      List.Forall₂ (fun (d : DimSummaryJson) (info : PillarInfo) =>
          ∃ colVals x, pillarColumn df info.total_col = some colVals ∧
            cellNum (r.get info.total_col RawCell.noneV) = some x ∧
            d.value = pyRound (safe_float (r.get info.total_col (RawCell.num 0))) ∧
            d.rank = rankMinDesc colVals x)
        c.dimension_summary PILLAR_STRUCTURE := by
  intro c hc
  obtain ⟨r, hr, hbc⟩ := processBatch_mem h hc
  obtain ⟨rk, dims, -, hdims, rfl⟩ := buildCountry_eq_some hbc
  refine ⟨r, hr, rfl, ?_⟩
  have h2 := (optMap_forall₂ hdims).flip
  refine h2.imp ?_
  intro d info hfd
  cases hrl : dimRankLookup df info.total_col r with
  | none => rw [hrl] at hfd; exact absurd hfd (by simp)
  | some rkd =>
    rw [hrl] at hfd
    simp only [Option.bind_eq_bind, Option.some_bind, Option.pure_def, Option.some_inj] at hfd
    rw [dimRankLookup, find?_country_self hnd hr] at hrl
    simp only [Option.bind_eq_bind, Option.some_bind] at hrl
    cases hcol : pillarColumn df info.total_col with
    | none => rw [rankOfRow, hcol] at hrl; exact absurd hrl (by simp)
    | some colVals =>
      cases hx : cellNum (r.get info.total_col RawCell.noneV) with
      | none => rw [rankOfRow, hcol, hx] at hrl; exact absurd hrl (by simp)
      | some x =>
        rw [rankOfRow, hcol, hx] at hrl
        simp only [Option.bind_eq_bind, Option.some_bind, Option.pure_def, Option.some_inj] at hrl
        exact ⟨colVals, x, rfl, rfl, by rw [← hfd], by rw [← hfd, ← hrl]⟩

/-- C4 amended witness: distinct-name frame `dfW`, first output country. -/
theorem dim_rank_amended_witness :
    ∃ r ∈ dfW,
      (((processBatch dfW).getD []).headI).country_name = pyStrip r.country ∧
      List.Forall₂ (fun (d : DimSummaryJson) (info : PillarInfo) =>
          ∃ colVals x, pillarColumn dfW info.total_col = some colVals ∧
            cellNum (r.get info.total_col RawCell.noneV) = some x ∧
            d.value = pyRound (safe_float (r.get info.total_col (RawCell.num 0))) ∧
            d.rank = rankMinDesc colVals x)
        (((processBatch dfW).getD []).headI).dimension_summary PILLAR_STRUCTURE :=
  dim_rank_amended dfW ((processBatch dfW).getD [])
    (eq_some_getD [] (by decide)) (by decide)
    (((processBatch dfW).getD []).headI)
    (headI_mem_of_ne_nil (by decide))

/-! ### Store Loader lemmas -/

theorem foldr_max_append (l1 l2 : List ℕ) :
    (l1 ++ l2).foldr max 0 = max (l1.foldr max 0) (l2.foldr max 0) := by
  induction l1 with
  | nil => simp
  | cons a t ih => simp [List.foldr_cons, ih, Nat.max_assoc]

theorem csAfter_find (db : DB) (e : CountryJson) :
    ∃ c, (csAfter db e).find? (fun c2 => c2.name == e.country_name) = some c ∧
      c ∈ csAfter db e ∧ c.name = e.country_name := by
  by_cases h : db.countries.any (fun c => c.name == e.country_name)
  · have hex := List.any_eq_true.1 h
    have hs : ((csAfter db e).find? (fun c2 => c2.name == e.country_name)).isSome := by
      rw [csAfter, if_pos h]
      exact List.find?_isSome.2 hex
    obtain ⟨c, hc⟩ := Option.isSome_iff_exists.1 hs
    exact ⟨c, hc, List.mem_of_find?_eq_some hc, by simpa using List.find?_some hc⟩
  · refine ⟨⟨maxCid db + 1, e.country_name, e.overall_adei_score, e.overall_adei_rank⟩,
      ?_, ?_, rfl⟩
    · rw [csAfter, if_neg h, List.find?_append]
      have h1 : db.countries.find? (fun c2 => c2.name == e.country_name) = none :=
        List.find?_eq_none.2 (fun x hx hpx => h (List.any_eq_true.2 ⟨x, hx, hpx⟩))
      rw [h1]
      simp [List.find?]
    · rw [csAfter, if_neg h]
      exact List.mem_append_right _ (List.mem_cons_self _ _)

theorem csAfter_cases (db : DB) (e : CountryJson) :
    (csAfter db e = db.countries ∧ ∃ c0 ∈ db.countries, c0.name = e.country_name) ∨
    (csAfter db e = db.countries ++
        [⟨maxCid db + 1, e.country_name, e.overall_adei_score, e.overall_adei_rank⟩] ∧
      ∀ c ∈ db.countries, c.name ≠ e.country_name) := by
  by_cases h : db.countries.any (fun c => c.name == e.country_name)
  · obtain ⟨c0, hc0, hb⟩ := List.any_eq_true.1 h
    exact Or.inl ⟨by rw [csAfter, if_pos h], c0, hc0, by simpa using hb⟩
  · refine Or.inr ⟨by rw [csAfter, if_neg h], fun c hc hn => ?_⟩
    exact absurd (List.any_eq_true.2 ⟨c, hc, by simp [hn]⟩) h

theorem insertEntry_spec (db : DB) (e : CountryJson) :
    ∃ c db', c ∈ csAfter db e ∧ c.name = e.country_name ∧
      insertEntry db e = some db' ∧
      db' = { countries := csAfter db e
              dimension_summaries := db.dimension_summaries ++ dimRowsFor db c.id e
              pillars :=
                db.pillars ++
                  (buildPillarRows c.id (maxPid db + 1) (maxSid db + 1)
                    e.detailed_pillars).1
              sub_pillars :=
                db.sub_pillars ++
                  (buildPillarRows c.id (maxPid db + 1) (maxSid db + 1)
                    e.detailed_pillars).2 } := by
  obtain ⟨c, hfind, hmem, hname⟩ := csAfter_find db e
  exact ⟨c, _, hmem, hname, by rw [insertEntry, hfind], rfl⟩

theorem buildPillarRows_fst_key (cid : ℕ) :
    ∀ (pl : List PillarJson) (p0 s0 : ℕ),
      ((buildPillarRows cid p0 s0 pl).1).map pKey = pl.map pKeyJ
  | [], _, _ => rfl
  | pj :: rest, p0, s0 => by
    simp only [buildPillarRows, List.map_cons]
    rw [buildPillarRows_fst_key cid rest (p0 + 1) (s0 + pj.sub_pillars.length)]
    rfl

theorem buildPillarRows_fst_mem (cid : ℕ) :
    ∀ (pl : List PillarJson) (p0 s0 : ℕ),
      ∀ p ∈ (buildPillarRows cid p0 s0 pl).1,
        p.country_id = cid ∧ p0 ≤ p.id ∧ p.id < p0 + pl.length
  | [], _, _ => by intro p hp; cases hp
  | pj :: rest, p0, s0 => by
    intro p hp
    rcases List.mem_cons.1 hp with rfl | hp'
    · exact ⟨rfl, le_refl _, by simp only [List.length_cons]; omega⟩
    · obtain ⟨h1, h2, h3⟩ :=
        buildPillarRows_fst_mem cid rest (p0 + 1) (s0 + pj.sub_pillars.length) p hp'
      exact ⟨h1, le_trans (Nat.le_succ p0) h2, by simp only [List.length_cons]; omega⟩

theorem buildPillarRows_snd_mem (cid : ℕ) :
    ∀ (pl : List PillarJson) (p0 s0 : ℕ),
      ∀ s ∈ (buildPillarRows cid p0 s0 pl).2,
        p0 ≤ s.pillar_id ∧ ∃ p ∈ (buildPillarRows cid p0 s0 pl).1, s.pillar_id = p.id
  | [], _, _ => by intro s hs; cases hs
  | pj :: rest, p0, s0 => by
    intro s hs
    rcases List.mem_append.1 hs with hs1 | hs2
    · rcases List.mem_map.1 hs1 with ⟨is, -, rfl⟩
      exact ⟨le_refl _, _, List.mem_cons_self _ _, rfl⟩
    · obtain ⟨h1, p, hp, h2⟩ :=
        buildPillarRows_snd_mem cid rest (p0 + 1) (s0 + pj.sub_pillars.length) s hs2
      exact ⟨le_trans (Nat.le_succ p0) h1, p, List.mem_cons_of_mem _ hp, h2⟩

theorem enumFrom_build_dsKey (k : ℕ) (cid : ℕ) (l : List DimSummaryJson) :
    ((List.enumFrom k l).map
        (fun id_ => (⟨id_.1, cid, id_.2.dimension, id_.2.pillar, id_.2.value,
                      id_.2.rank⟩ : DimSummaryRowDB))).map dsKey
      = l.map dsKeyJ := by
  rw [List.map_map]
  have : (dsKey ∘ fun id_ : ℕ × DimSummaryJson =>
      (⟨id_.1, cid, id_.2.dimension, id_.2.pillar, id_.2.value, id_.2.rank⟩ :
        DimSummaryRowDB)) = dsKeyJ ∘ Prod.snd := rfl
  rw [this, ← List.map_map, List.enumFrom_map_snd]

theorem enumFrom_build_spKey (k : ℕ) (pid : ℕ) (l : List SubPillarJson) :
    ((List.enumFrom k l).map
        (fun is => (⟨is.1, pid, is.2.name, is.2.score⟩ : SubPillarRowDB))).map spKey
      = l.map spKeyJ := by
  rw [List.map_map]
  have : (spKey ∘ fun is : ℕ × SubPillarJson =>
      (⟨is.1, pid, is.2.name, is.2.score⟩ : SubPillarRowDB)) = spKeyJ ∘ Prod.snd := rfl
  rw [this, ← List.map_map, List.enumFrom_map_snd]

theorem buildPillarRows_subs_char (cid : ℕ) :
    ∀ (pl : List PillarJson) (p0 s0 : ℕ) (pre : List SubPillarRowDB),
      (∀ s ∈ pre, s.pillar_id < p0) →
      List.Forall₂ (fun (p : PillarRowDB) (ip : PillarJson) =>
          ((pre ++ (buildPillarRows cid p0 s0 pl).2).filter
              (fun s => s.pillar_id == p.id)).map spKey
            = ip.sub_pillars.map spKeyJ)
        (buildPillarRows cid p0 s0 pl).1 pl
  | [], _, _, _, _ => List.Forall₂.nil
  | pj :: rest, p0, s0, pre, hpre => by
    simp only [buildPillarRows]
    refine List.Forall₂.cons ?_ ?_
    · have h1 : pre.filter (fun s => s.pillar_id == p0) = [] :=
        List.filter_eq_nil_iff.2 (fun s hs => by
          simp only [beq_iff_eq]
          exact Nat.ne_of_lt (hpre s hs))
      have h2 : (((buildPillarRows cid (p0 + 1) (s0 + pj.sub_pillars.length) rest).2).filter
          (fun s => s.pillar_id == p0)) = [] :=
        List.filter_eq_nil_iff.2 (fun s hs => by
          simp only [beq_iff_eq]
          have := (buildPillarRows_snd_mem cid rest (p0 + 1) _ s hs).1
          omega)
      have h3 : (((List.enumFrom s0 pj.sub_pillars).map
          (fun is => (⟨is.1, p0, is.2.name, is.2.score⟩ : SubPillarRowDB))).filter
            (fun s => s.pillar_id == p0))
          = (List.enumFrom s0 pj.sub_pillars).map
              (fun is => (⟨is.1, p0, is.2.name, is.2.score⟩ : SubPillarRowDB)) :=
        List.filter_eq_self.2 (fun s hs => by
          rcases List.mem_map.1 hs with ⟨is, -, rfl⟩
          simp)
      rw [List.filter_append, h1, List.filter_append, h3, h2, List.append_nil,
        List.nil_append]
      exact enumFrom_build_spKey s0 p0 pj.sub_pillars
    · have := buildPillarRows_subs_char cid rest (p0 + 1) (s0 + pj.sub_pillars.length)
        (pre ++ (List.enumFrom s0 pj.sub_pillars).map
          (fun is => (⟨is.1, p0, is.2.name, is.2.score⟩ : SubPillarRowDB)))
        (by
          intro s hs
          rcases List.mem_append.1 hs with hs1 | hs2
          · exact Nat.lt_trans (hpre s hs1) (Nat.lt_succ_self p0)
          · rcases List.mem_map.1 hs2 with ⟨is, -, rfl⟩
            exact Nat.lt_succ_self p0)
      simpa [List.append_assoc] using this

theorem name_eq_iff_id_eq {cs : List CountryRowDB}
    (hid : (cs.map (·.id)).Nodup) (hnm : (cs.map (·.name)).Nodup)
    {c1 c2 : CountryRowDB} (h1 : c1 ∈ cs) (h2 : c2 ∈ cs) :
    c1.name = c2.name ↔ c1.id = c2.id := by
  constructor
  · intro h; rw [List.inj_on_of_nodup_map hnm h1 h2 h]
  · intro h; rw [List.inj_on_of_nodup_map hid h1 h2 h]

theorem csAfter_nodup {db : DB} {e : CountryJson}
    (h1 : (db.countries.map (·.id)).Nodup) (h2 : (db.countries.map (·.name)).Nodup) :
    ((csAfter db e).map (·.id)).Nodup ∧ ((csAfter db e).map (·.name)).Nodup := by
  rcases csAfter_cases db e with ⟨heq, -⟩ | ⟨heq, hn⟩
  · rw [heq]; exact ⟨h1, h2⟩
  · rw [heq]
    constructor
    · rw [List.map_append, List.nodup_append]
      refine ⟨h1, by simp, ?_⟩
      intro a ha hb
      rcases List.mem_map.1 ha with ⟨c, hc, rfl⟩
      have hle : c.id ≤ maxCid db := le_foldr_max (List.mem_map_of_mem (·.id) hc)
      simp only [List.map_cons, List.map_nil, List.mem_singleton] at hb
      omega
    · rw [List.map_append, List.nodup_append]
      refine ⟨h2, by simp, ?_⟩
      intro a ha hb
      rcases List.mem_map.1 ha with ⟨c, hc, rfl⟩
      simp only [List.map_cons, List.map_nil, List.mem_singleton] at hb
      exact hn c hc hb

theorem maxCid_csAfter {db : DB} {e : CountryJson} {rest : DB}
    (h : rest.countries = csAfter db e) : maxCid db ≤ maxCid rest := by
  rcases csAfter_cases db e with ⟨heq, -⟩ | ⟨heq, -⟩
  · unfold maxCid; rw [h, heq]
  · unfold maxCid
    rw [h, heq, List.map_append, foldr_max_append]
    exact le_max_left _ _

/-- One full `load_data_into_db` iteration for a single entry: the store it
produces, how its `countries` table evolves, and how each country's
dimension-summary, pillar and sub-pillar row sets evolve. -/
theorem insertEntry_char (db : DB) (e : CountryJson) (hInv : DBInv db) :
    ∃ db', insertEntry db e = some db' ∧ DBInv db' ∧
      maxCid db ≤ maxCid db' ∧
      (∃ t, db'.countries = db.countries ++ t ∧
        ∀ c ∈ t, c.name = e.country_name ∧ c.name ∉ db.countries.map (·.name) ∧
          maxCid db < c.id) ∧
      (∃ c0 ∈ db'.countries, c0.name = e.country_name) ∧
      (∀ c ∈ db'.countries,
        (dimsOfC db' c.id).map dsKey = (dimsOfC db c.id).map dsKey ++
          (if c.name = e.country_name then e.dimension_summary.map dsKeyJ else [])) ∧
      (∀ c ∈ db'.countries,
        (pilsOfC db' c.id).map pKey = (pilsOfC db c.id).map pKey ++
          (if c.name = e.country_name then e.detailed_pillars.map pKeyJ else [])) ∧
      (∃ tp, db'.pillars = db.pillars ++ tp ∧
        (∀ p ∈ db.pillars, subsOfP db' p.id = subsOfP db p.id) ∧
        List.Forall₂
          (fun p ip => (subsOfP db' p.id).map spKey = ip.sub_pillars.map spKeyJ)
          tp e.detailed_pillars) := by
  obtain ⟨hidN, hnmN, hdimB, hpilB, hsubB⟩ := hInv
  obtain ⟨cf, db', hcfmem, hcfname, hins, hdb'⟩ := insertEntry_spec db e
  obtain ⟨hidN', hnmN'⟩ := csAfter_nodup hidN hnmN
  have hcountries : db'.countries = csAfter db e := by rw [hdb']
  have hmono : maxCid db ≤ maxCid db' := maxCid_csAfter hcountries
  have hcfmem' : cf ∈ db'.countries := by rw [hcountries]; exact hcfmem
  have hcfle : cf.id ≤ maxCid db' := by
    exact le_foldr_max (List.mem_map_of_mem (·.id) (hcountries ▸ hcfmem))
  -- the appended child rows
  have hdims' : db'.dimension_summaries =
      db.dimension_summaries ++ dimRowsFor db cf.id e := by rw [hdb']
  have hpils' : db'.pillars = db.pillars ++
      (buildPillarRows cf.id (maxPid db + 1) (maxSid db + 1) e.detailed_pillars).1 := by
    rw [hdb']
  have hsubs' : db'.sub_pillars = db.sub_pillars ++
      (buildPillarRows cf.id (maxPid db + 1) (maxSid db + 1) e.detailed_pillars).2 := by
    rw [hdb']
  have hmaxP : maxPid db ≤ maxPid db' := by
    unfold maxPid
    rw [hpils', List.map_append, foldr_max_append]
    exact le_max_left _ _
  -- name ↔ id correspondence against the found row
  have hkey : ∀ c ∈ db'.countries, (c.name = e.country_name ↔ c.id = cf.id) := by
    intro c hc
    rw [← hcfname]
    exact name_eq_iff_id_eq (hcountries ▸ hidN') (hcountries ▸ hnmN') hc hcfmem'
  refine ⟨db', hins, ?inv, hmono, ?coun, ⟨cf, hcfmem', hcfname⟩, ?dims, ?pils, ?subs⟩
  case inv =>
    refine ⟨hcountries ▸ hidN', hcountries ▸ hnmN', ?_, ?_, ?_⟩
    · intro d hd
      rw [hdims'] at hd
      rcases List.mem_append.1 hd with hd1 | hd2
      · exact le_trans (hdimB d hd1) hmono
      · rcases List.mem_map.1 hd2 with ⟨is, -, rfl⟩
        exact hcfle
    · intro p hp
      rw [hpils'] at hp
      rcases List.mem_append.1 hp with hp1 | hp2
      · exact le_trans (hpilB p hp1) hmono
      · exact (buildPillarRows_fst_mem cf.id _ _ _ p hp2).1 ▸ hcfle
    · intro sp hsp
      rw [hsubs'] at hsp
      rcases List.mem_append.1 hsp with hs1 | hs2
      · exact le_trans (hsubB sp hs1) hmaxP
      · obtain ⟨-, p, hp, hpid⟩ := buildPillarRows_snd_mem cf.id _ _ _ sp hs2
        rw [hpid]
        unfold maxPid
        rw [hpils']
        exact le_foldr_max (List.mem_map_of_mem (·.id) (List.mem_append_right _ hp))
  case coun =>
    rcases csAfter_cases db e with ⟨heq, -⟩ | ⟨heq, hn⟩
    · exact ⟨[], by rw [hcountries, heq, List.append_nil], by simp⟩
    · refine ⟨_, by rw [hcountries, heq], ?_⟩
      intro c hc
      simp only [List.mem_singleton] at hc
      subst hc
      refine ⟨rfl, ?_, Nat.lt_succ_self _⟩
      intro hmem
      rcases List.mem_map.1 hmem with ⟨c', hc', hc'n⟩
      exact hn c' hc' hc'n
  case dims =>
    intro c hc
    have : dimsOfC db' c.id =
        dimsOfC db c.id ++ (dimRowsFor db cf.id e).filter (fun d => d.country_id == c.id) := by
      rw [dimsOfC, hdims', List.filter_append]; rfl
    rw [this, List.map_append]
    congr 1
    by_cases hcn : c.name = e.country_name
    · have hcid : cf.id = c.id := ((hkey c hc).1 hcn).symm
      rw [if_pos hcn]
      have : (dimRowsFor db cf.id e).filter (fun d => d.country_id == c.id)
          = dimRowsFor db cf.id e := by
        refine List.filter_eq_self.2 (fun d hd => ?_)
        rcases List.mem_map.1 hd with ⟨is, -, rfl⟩
        simp [hcid]
      rw [this, dimRowsFor]
      exact enumFrom_build_dsKey _ _ _
    · rw [if_neg hcn]
      have : (dimRowsFor db cf.id e).filter (fun d => d.country_id == c.id) = [] := by
        refine List.filter_eq_nil_iff.2 (fun d hd => ?_)
        rcases List.mem_map.1 hd with ⟨is, -, rfl⟩
        simp only [beq_iff_eq]
        intro hEq
        exact hcn ((hkey c hc).2 hEq.symm)
      rw [this]
      rfl
  case pils =>
    intro c hc
    have heqf : pilsOfC db' c.id =
        pilsOfC db c.id ++
          ((buildPillarRows cf.id (maxPid db + 1) (maxSid db + 1)
              e.detailed_pillars).1).filter (fun p => p.country_id == c.id) := by
      rw [pilsOfC, hpils', List.filter_append]; rfl
    rw [heqf, List.map_append]
    congr 1
    by_cases hcn : c.name = e.country_name
    · have hcid : cf.id = c.id := ((hkey c hc).1 hcn).symm
      rw [if_pos hcn]
      have : ((buildPillarRows cf.id (maxPid db + 1) (maxSid db + 1)
            e.detailed_pillars).1).filter (fun p => p.country_id == c.id)
          = (buildPillarRows cf.id (maxPid db + 1) (maxSid db + 1)
              e.detailed_pillars).1 := by
        refine List.filter_eq_self.2 (fun p hp => ?_)
        have := (buildPillarRows_fst_mem cf.id _ _ _ p hp).1
        simp [this, hcid]
      rw [this]
      exact buildPillarRows_fst_key cf.id e.detailed_pillars _ _
    · rw [if_neg hcn]
      have : ((buildPillarRows cf.id (maxPid db + 1) (maxSid db + 1)
            e.detailed_pillars).1).filter (fun p => p.country_id == c.id) = [] := by
        refine List.filter_eq_nil_iff.2 (fun p hp => ?_)
        have := (buildPillarRows_fst_mem cf.id _ _ _ p hp).1
        simp only [this, beq_iff_eq]
        intro hEq
        exact hcn ((hkey c hc).2 hEq.symm)
      rw [this]
      rfl
  case subs =>
    refine ⟨_, hpils', ?_, ?_⟩
    · intro p hp
      have hple : p.id ≤ maxPid db := le_foldr_max (List.mem_map_of_mem (·.id) hp)
      rw [subsOfP, hsubs', List.filter_append]
      have : ((buildPillarRows cf.id (maxPid db + 1) (maxSid db + 1)
            e.detailed_pillars).2).filter (fun s => s.pillar_id == p.id) = [] := by
        refine List.filter_eq_nil_iff.2 (fun s hs => ?_)
        have := (buildPillarRows_snd_mem cf.id _ _ _ s hs).1
        simp only [beq_iff_eq]
        omega
      rw [this, List.append_nil]
      rfl
    · have := buildPillarRows_subs_char cf.id e.detailed_pillars (maxPid db + 1)
        (maxSid db + 1) db.sub_pillars
        (fun s hs => Nat.lt_succ_of_le (hsubB s hs))
      refine this.imp ?_
      intro p ip hpi
      rw [subsOfP, hsubs']
      exact hpi

theorem forall₂_imp_mem {α β : Type} {R S : α → β → Prop} :
    ∀ {l1 : List α} {l2 : List β}, List.Forall₂ R l1 l2 →
      (∀ a ∈ l1, ∀ b ∈ l2, R a b → S a b) → List.Forall₂ S l1 l2 := by
  intro l1 l2 h
  induction h with
  | nil => intro _; exact List.Forall₂.nil
  | cons hab htail ih =>
    intro hi
    refine List.Forall₂.cons
      (hi _ (List.mem_cons_self _ _) _ (List.mem_cons_self _ _) hab) (ih ?_)
    intro a ha b hb
    exact hi a (List.mem_cons_of_mem _ ha) b (List.mem_cons_of_mem _ hb)

theorem load_data_cons (db : DB) (e : CountryJson) (rest : List CountryJson)
    {db1 : DB} (h : insertEntry db e = some db1) :
    load_data_into_db db (e :: rest) = load_data_into_db db1 rest := by
  rw [load_data_into_db, h]

/-- Characterisation of `load_data_into_db` relative to the starting store:
preservation of well-formedness, evolution of the `countries` table, and, for
every country row of the result, its dimension-summary and pillar row
payloads; plus the correspondence between appended pillar rows and the
input's pillar objects, each with exactly its own sub-indicator rows. -/
theorem load_char (input : List CountryJson) :
    ∀ (db db' : DB), DBInv db → load_data_into_db db input = some db' →
    DBInv db' ∧
    maxCid db ≤ maxCid db' ∧
    (∃ t, db'.countries = db.countries ++ t ∧
      ∀ c ∈ t, c.name ∉ db.countries.map (·.name) ∧
        c.name ∈ input.map (·.country_name) ∧ maxCid db < c.id) ∧
    (∀ e ∈ input, ∃ c0 ∈ db'.countries, c0.name = e.country_name) ∧
    (∀ c ∈ db'.countries,
      (dimsOfC db' c.id).map dsKey = (dimsOfC db c.id).map dsKey ++
        ((input.filter (fun e => e.country_name == c.name)).flatMap
          (·.dimension_summary)).map dsKeyJ) ∧
    (∀ c ∈ db'.countries,
      (pilsOfC db' c.id).map pKey = (pilsOfC db c.id).map pKey ++
        ((input.filter (fun e => e.country_name == c.name)).flatMap
          (·.detailed_pillars)).map pKeyJ) ∧
    (∃ tp, db'.pillars = db.pillars ++ tp ∧
      (∀ p ∈ db.pillars, subsOfP db' p.id = subsOfP db p.id) ∧
      List.Forall₂
        (fun p ip => (subsOfP db' p.id).map spKey = ip.sub_pillars.map spKeyJ)
        tp (input.flatMap (·.detailed_pillars))) := by
  induction input with
  | nil =>
    intro db db' hInv h
    rw [load_data_into_db] at h
    cases h
    refine ⟨hInv, le_refl _, ⟨[], by simp, by simp⟩, by simp, ?_, ?_, ⟨[], by simp, fun p _ => rfl, by simp⟩⟩
    · intro c _; simp
    · intro c _; simp
  | cons e rest ih =>
    intro db db' hInv hload
    obtain ⟨db1, hins, hInv1, hmono1, ⟨t1, hc1, ht1⟩, ⟨c0, hc0, hc0n⟩,
      hdims1, hpils1, ⟨tp1, hp1, hold1, hfa1⟩⟩ := insertEntry_char db e hInv
    rw [load_data_cons db e rest hins] at hload
    obtain ⟨hInv', hmono2, ⟨t2, hc2, ht2⟩, hcov2, hdims2, hpils2,
      ⟨tp2, hp2, hold2, hfa2⟩⟩ := ih db1 db' hInv1 hload
    have hsubdb1 : ∀ c ∈ db.countries, c ∈ db1.countries := by
      intro c hc; rw [hc1]; exact List.mem_append_left _ hc
    have hsubdb' : ∀ c ∈ db1.countries, c ∈ db'.countries := by
      intro c hc; rw [hc2]; exact List.mem_append_left _ hc
    -- facts about fresh countries added while loading `rest`
    have ht2' : ∀ c ∈ t2, c.name ≠ e.country_name ∧
        dimsOfC db1 c.id = [] ∧ dimsOfC db c.id = [] ∧
        pilsOfC db1 c.id = [] ∧ pilsOfC db c.id = [] := by
      intro c hc
      obtain ⟨hnin, -, hgt⟩ := ht2 c hc
      have hne : c.name ≠ e.country_name := by
        intro hEq
        apply hnin
        rw [hEq, ← hc0n]
        exact List.mem_map_of_mem (·.name) hc0
      have hd1 : dimsOfC db1 c.id = [] :=
        List.filter_eq_nil_iff.2 (fun d hd => by
          simp only [beq_iff_eq]
          have := hInv1.2.2.1 d hd
          omega)
      have hdimdb : ∀ d ∈ db.dimension_summaries, d ∈ db1.dimension_summaries := by
        intro d hd
        have : ∃ u, db1.dimension_summaries = db.dimension_summaries ++ u := by
          obtain ⟨cf, db1', hm, hn, hi, hdbeq⟩ := insertEntry_spec db e
          rw [hi] at hins
          cases hins
          exact ⟨_, by rw [hdbeq]⟩
        obtain ⟨u, hu⟩ := this
        rw [hu]; exact List.mem_append_left _ hd
      have hd0 : dimsOfC db c.id = [] := by
        refine List.filter_eq_nil_iff.2 (fun d hd => ?_)
        have : d ∈ db1.dimension_summaries := hdimdb d hd
        simp only [beq_iff_eq]
        have := hInv1.2.2.1 d this
        omega
      have hpil1 : pilsOfC db1 c.id = [] :=
        List.filter_eq_nil_iff.2 (fun p hp => by
          simp only [beq_iff_eq]
          have := hInv1.2.2.2.1 p hp
          omega)
      have hpildb : ∀ p ∈ db.pillars, p ∈ db1.pillars := by
        intro p hp; rw [hp1]; exact List.mem_append_left _ hp
      have hpil0 : pilsOfC db c.id = [] :=
        List.filter_eq_nil_iff.2 (fun p hp => by
          simp only [beq_iff_eq]
          have := hInv1.2.2.2.1 p (hpildb p hp)
          omega)
      exact ⟨hne, hd1, hd0, hpil1, hpil0⟩
    refine ⟨hInv', le_trans hmono1 hmono2, ?coun, ?cov, ?dims, ?pils, ?subs⟩
    case coun =>
      refine ⟨t1 ++ t2, by rw [hc2, hc1, List.append_assoc], ?_⟩
      intro c hc
      rcases List.mem_append.1 hc with hc' | hc'
      · obtain ⟨hn, hnin, hgt⟩ := ht1 c hc'
        exact ⟨hnin, by simp [hn], hgt⟩
      · obtain ⟨hnin, hmemn, hgt⟩ := ht2 c hc'
        refine ⟨?_, by simp [hmemn], lt_of_le_of_lt hmono1 hgt⟩
        intro hmem
        apply hnin
        rcases List.mem_map.1 hmem with ⟨c', hc'', hEq⟩
        rw [← hEq]
        exact List.mem_map_of_mem (·.name) (hsubdb1 c' hc'')
    case cov =>
      intro e' he'
      rcases List.mem_cons.1 he' with rfl | he''
      · exact ⟨c0, hsubdb' c0 hc0, hc0n⟩
      · exact hcov2 e' he''
    case dims =>
      intro c hc
      have hstep : (dimsOfC db1 c.id).map dsKey = (dimsOfC db c.id).map dsKey ++
          (if c.name = e.country_name then e.dimension_summary.map dsKeyJ else []) := by
        rcases List.mem_append.1 (hc2 ▸ hc) with hcm | hcm
        · exact hdims1 c hcm
        · obtain ⟨hne, hd1, hd0, -, -⟩ := ht2' c hcm
          rw [hd1, hd0, if_neg hne]
          rfl
      have hrest := hdims2 c hc
      rw [hrest, hstep]
      by_cases hcn : c.name = e.country_name
      · rw [if_pos hcn, List.filter_cons_of_pos (by simp [hcn]), List.flatMap_cons,
          List.map_append, List.append_assoc]
      · rw [if_neg hcn,
          List.filter_cons_of_neg (by simp only [beq_iff_eq]; exact fun h => hcn h.symm),
          List.append_nil]
    case pils =>
      intro c hc
      have hstep : (pilsOfC db1 c.id).map pKey = (pilsOfC db c.id).map pKey ++
          (if c.name = e.country_name then e.detailed_pillars.map pKeyJ else []) := by
        rcases List.mem_append.1 (hc2 ▸ hc) with hcm | hcm
        · exact hpils1 c hcm
        · obtain ⟨hne, -, -, hpl1, hpl0⟩ := ht2' c hcm
          rw [hpl1, hpl0, if_neg hne]
          rfl
      have hrest := hpils2 c hc
      rw [hrest, hstep]
      by_cases hcn : c.name = e.country_name
      · rw [if_pos hcn, List.filter_cons_of_pos (by simp [hcn]), List.flatMap_cons,
          List.map_append, List.append_assoc]
      · rw [if_neg hcn,
          List.filter_cons_of_neg (by simp only [beq_iff_eq]; exact fun h => hcn h.symm),
          List.append_nil]
    case subs =>
      refine ⟨tp1 ++ tp2, by rw [hp2, hp1, List.append_assoc], ?_, ?_⟩
      · intro p hp
        rw [hold2 p (by rw [hp1]; exact List.mem_append_left _ hp)]
        exact hold1 p hp
      · rw [List.flatMap_cons]
        refine List.rel_append ?_ hfa2
        refine forall₂_imp_mem hfa1 ?_
        intro p hptp ip _ hrel
        rw [hold2 p (by rw [hp1]; exact List.mem_append_right _ hptp)]
        exact hrel

theorem buildPillarRows_fst_len (cid : ℕ) (pl : List PillarJson) (p0 s0 : ℕ) :
    ((buildPillarRows cid p0 s0 pl).1).length = pl.length := by
  have := buildPillarRows_fst_key cid pl p0 s0
  have h1 := congrArg List.length this
  simpa using h1

theorem buildPillarRows_snd_len (cid : ℕ) :
    ∀ (pl : List PillarJson) (p0 s0 : ℕ),
      ((buildPillarRows cid p0 s0 pl).2).length =
        (pl.map (fun p => p.sub_pillars.length)).sum := by
  intro pl
  induction pl with
  | nil => intro p0 s0; rfl
  | cons pj rest ih =>
    intro p0 s0
    simp only [buildPillarRows, List.length_append, List.length_map,
      List.enumFrom_length, List.map_cons, List.sum_cons, ih]

theorem load_counts (input : List CountryJson) :
    ∀ (db db' : DB), load_data_into_db db input = some db' →
      db'.pillars.length =
        db.pillars.length + (input.map (fun e => e.detailed_pillars.length)).sum ∧
      db'.dimension_summaries.length =
        db.dimension_summaries.length +
          (input.map (fun e => e.dimension_summary.length)).sum ∧
      db'.sub_pillars.length =
        db.sub_pillars.length +
          (input.map (fun e =>
            (e.detailed_pillars.map (fun p => p.sub_pillars.length)).sum)).sum := by
  induction input with
  | nil =>
    intro db db' h
    rw [load_data_into_db] at h
    cases h
    simp
  | cons e rest ih =>
    intro db db' hload
    obtain ⟨cf, db1, hm, hn, hins, hdbeq⟩ := insertEntry_spec db e
    rw [load_data_cons db e rest hins] at hload
    obtain ⟨h1, h2, h3⟩ := ih db1 db' hload
    refine ⟨?_, ?_, ?_⟩
    · rw [h1, hdbeq]
      simp only [List.length_append, List.map_cons, List.sum_cons]
      rw [buildPillarRows_fst_len]
      omega
    · rw [h2, hdbeq]
      simp only [List.length_append, List.map_cons, List.sum_cons, dimRowsFor,
        List.length_map, List.enumFrom_length]
      omega
    · rw [h3, hdbeq]
      simp only [List.length_append, List.map_cons, List.sum_cons]
      rw [buildPillarRows_snd_len]
      omega

theorem load_coverage (input : List CountryJson) :
    ∀ (db db' : DB), load_data_into_db db input = some db' →
      (∀ c ∈ db.countries, c ∈ db'.countries) ∧
      (∀ e ∈ input, ∃ c ∈ db'.countries, c.name = e.country_name) := by
  induction input with
  | nil =>
    intro db db' h
    rw [load_data_into_db] at h
    cases h
    exact ⟨fun c hc => hc, by simp⟩
  | cons e rest ih =>
    intro db db' hload
    obtain ⟨cf, db1, hm, hn, hins, hdbeq⟩ := insertEntry_spec db e
    rw [load_data_cons db e rest hins] at hload
    obtain ⟨h1, h2⟩ := ih db1 db' hload
    have hcs : db1.countries = csAfter db e := by rw [hdbeq]
    have hsub : ∀ c ∈ db.countries, c ∈ db1.countries := by
      intro c hc
      rw [hcs]
      rcases csAfter_cases db e with ⟨heq, -⟩ | ⟨heq, -⟩
      · rw [heq]; exact hc
      · rw [heq]; exact List.mem_append_left _ hc
    refine ⟨fun c hc => h1 c (hsub c hc), ?_⟩
    intro e' he'
    rcases List.mem_cons.1 he' with rfl | he''
    · exact ⟨cf, h1 cf (hcs ▸ hm), hn⟩
    · exact h2 e' he''

theorem load_countries_stable (input : List CountryJson) :
    ∀ (db db' : DB), load_data_into_db db input = some db' →
      (∀ e ∈ input, ∃ c ∈ db.countries, c.name = e.country_name) →
      db'.countries = db.countries := by
  induction input with
  | nil =>
    intro db db' h _
    rw [load_data_into_db] at h
    cases h
    rfl
  | cons e rest ih =>
    intro db db' hload hall
    obtain ⟨cf, db1, hm, hn, hins, hdbeq⟩ := insertEntry_spec db e
    rw [load_data_cons db e rest hins] at hload
    have hcs : db1.countries = csAfter db e := by rw [hdbeq]
    have hpresent : csAfter db e = db.countries := by
      rcases csAfter_cases db e with ⟨heq, -⟩ | ⟨heq, habs⟩
      · exact heq
      · obtain ⟨c, hc, hcn⟩ := hall e (List.mem_cons_self _ _)
        exact absurd hcn (habs c hc)
    have hcs' : db1.countries = db.countries := by rw [hcs, hpresent]
    have := ih db1 db' hload (by
      intro e' he'
      obtain ⟨c, hc, hcn⟩ := hall e' (List.mem_cons_of_mem _ he')
      exact ⟨c, hcs' ▸ hc, hcn⟩)
    rw [this, hcs']

theorem load_total (input : List CountryJson) :
    ∀ db : DB, ∃ db', load_data_into_db db input = some db' := by
  induction input with
  | nil => intro db; exact ⟨db, rfl⟩
  | cons e rest ih =>
    intro db
    obtain ⟨cf, db1, -, -, hins, -⟩ := insertEntry_spec db e
    obtain ⟨db', hload⟩ := ih db1
    exact ⟨db', by rw [load_data_cons db e rest hins, hload]⟩

theorem emptyDB_inv : DBInv emptyDB :=
  ⟨List.nodup_nil, List.nodup_nil,
   fun d hd => absurd hd (List.not_mem_nil d),
   fun p hp => absurd hp (List.not_mem_nil p),
   fun sp hsp => absurd hsp (List.not_mem_nil sp)⟩

/-! ### C2 — `load_data_into_db` does not discard an existing store -/

/-- C2 counterexample: loading the one-country input `[entryA]` into an
empty store yields 1 countries row, 1 pillar row, and a 1-row pillar profile
for "A"; loading the same input again — without any discard happening —
yields 2 pillar rows and a 2-row profile for "A", so the Analytics results
of a reload are not identical to those of the first load. -/
theorem reload_counterexample :
    (load_data_into_db emptyDB [entryA]).map
        (fun d => (d.countries.length, d.pillars.length,
          (get_country_profile_data "A" d).pillars_df.length)) = some (1, 1, 1) ∧
    ((load_data_into_db emptyDB [entryA]).bind
        (fun d => load_data_into_db d [entryA])).map
        (fun d => (d.countries.length, d.pillars.length,
          (get_country_profile_data "A" d).pillars_df.length)) = some (1, 2, 2) ∧
    (2 : ℕ) ≠ 1 := by decide

/-- C2 (amended): `load_data_into_db` never discards the store it finds — it
appends.  Loading the same input twice leaves the `countries` table as after
the first load (`INSERT OR IGNORE` skips every row), but appends one fresh
copy of every dimension-summary, pillar and sub-indicator child row, so the
child tables grow by the input's total row counts instead of staying fixed.
(Only the spreadsheet-conversion script separately deletes the store file
first.) -/
theorem reload_appends (input : List CountryJson) (db0 db1 db2 : DB)
    (h1 : load_data_into_db db0 input = some db1)
    (h2 : load_data_into_db db1 input = some db2) :
    db2.countries = db1.countries ∧
    db2.pillars.length =
      db1.pillars.length + (input.map (fun e => e.detailed_pillars.length)).sum ∧
    db2.dimension_summaries.length =
      db1.dimension_summaries.length +
        (input.map (fun e => e.dimension_summary.length)).sum ∧
    db2.sub_pillars.length =
      db1.sub_pillars.length +
        (input.map (fun e =>
          (e.detailed_pillars.map (fun p => p.sub_pillars.length)).sum)).sum := by
  have hcov := (load_coverage input db0 db1 h1).2
  have hstable := load_countries_stable input db1 db2 h2 hcov
  have hcnt := load_counts input db1 db2 h2
  exact ⟨hstable, hcnt.1, hcnt.2.1, hcnt.2.2⟩

/-- C2 amended witness: the concrete double load of `[entryA]`. -/
theorem reload_appends_witness :
    db2A.countries = db1A.countries ∧
    db2A.pillars.length =
      db1A.pillars.length + ([entryA].map (fun e => e.detailed_pillars.length)).sum ∧
    db2A.dimension_summaries.length =
      db1A.dimension_summaries.length +
        ([entryA].map (fun e => e.dimension_summary.length)).sum ∧
    db2A.sub_pillars.length =
      db1A.sub_pillars.length +
        ([entryA].map (fun e =>
          (e.detailed_pillars.map (fun p => p.sub_pillars.length)).sum)).sum :=
  reload_appends [entryA] emptyDB db1A db2A (by decide) (by decide)

/-! ### C3 — duplicate country names: insert-or-skip, children linked -/

/-- C3: for any input list — in particular one containing two entries with
the same country name — the load into a fresh store completes without error;
the store holds exactly one countries row per distinct input name; each
country row's dimension-summary and pillar rows are exactly those of the
input entries bearing its name, linked to it by `country_id`; and the pillar
rows correspond one-to-one, in order, with the input's pillar objects, each
carrying exactly its own sub-indicator rows linked by `pillar_id`. -/
theorem load_duplicate_names (input : List CountryJson)
    (hdup : ¬ (input.map (·.country_name)).Nodup) :
    ∃ db, load_data_into_db emptyDB input = some db ∧
      (db.countries.map (·.name)).Nodup ∧
      (∀ n, n ∈ db.countries.map (·.name) ↔ n ∈ input.map (·.country_name)) ∧
      (∀ c ∈ db.countries,
        (dimsOfC db c.id).map dsKey =
          ((input.filter (fun e => e.country_name == c.name)).flatMap
            (·.dimension_summary)).map dsKeyJ) ∧
      (∀ c ∈ db.countries,
        (pilsOfC db c.id).map pKey =
          ((input.filter (fun e => e.country_name == c.name)).flatMap
            (·.detailed_pillars)).map pKeyJ) ∧
      List.Forall₂
        (fun p ip => (subsOfP db p.id).map spKey = ip.sub_pillars.map spKeyJ)
        db.pillars (input.flatMap (·.detailed_pillars)) := by
  obtain ⟨db, hload⟩ := load_total input emptyDB
  obtain ⟨hInv, -, ⟨t, hct, htp⟩, hcov, hdims, hpils, ⟨tp, hpt, -, hfa⟩⟩ :=
    load_char input emptyDB db emptyDB_inv hload
  have hct' : db.countries = t := by simpa [emptyDB] using hct
  have hpt' : db.pillars = tp := by simpa [emptyDB] using hpt
  refine ⟨db, hload, hInv.2.1, ?_, ?_, ?_, ?_⟩
  · intro n
    constructor
    · intro hn
      rcases List.mem_map.1 hn with ⟨c, hc, rfl⟩
      exact (htp c (hct' ▸ hc)).2.1
    · intro hn
      rcases List.mem_map.1 hn with ⟨e, he, rfl⟩
      obtain ⟨c0, hc0, hc0n⟩ := hcov e he
      exact hc0n ▸ List.mem_map_of_mem (·.name) hc0
  · intro c hc
    have := hdims c hc
    simpa [dimsOfC, emptyDB] using this
  · intro c hc
    have := hpils c hc
    simpa [pilsOfC, emptyDB] using this
  · rw [hpt']
    exact hfa

/-- C3 witness: the input `inputDup` holds two entries named "A". -/
theorem load_duplicate_names_witness :
    (¬ (inputDup.map (·.country_name)).Nodup) ∧
    (∃ db, load_data_into_db emptyDB inputDup = some db ∧
      (db.countries.map (·.name)).Nodup ∧
      (∀ n, n ∈ db.countries.map (·.name) ↔ n ∈ inputDup.map (·.country_name)) ∧
      (∀ c ∈ db.countries,
        (dimsOfC db c.id).map dsKey =
          ((inputDup.filter (fun e => e.country_name == c.name)).flatMap
            (·.dimension_summary)).map dsKeyJ) ∧
      (∀ c ∈ db.countries,
        (pilsOfC db c.id).map pKey =
          ((inputDup.filter (fun e => e.country_name == c.name)).flatMap
            (·.detailed_pillars)).map pKeyJ) ∧
      List.Forall₂
        (fun p ip => (subsOfP db p.id).map spKey = ip.sub_pillars.map spKeyJ)
        db.pillars (inputDup.flatMap (·.detailed_pillars))) :=
  ⟨by decide, load_duplicate_names inputDup (by decide)⟩

/-! ### C8 — nine pillars per country, in canonical catalog order -/

theorem filter_name_singleton {l : List CountryJson}
    (hnd : (l.map (·.country_name)).Nodup) {e : CountryJson} (he : e ∈ l) :
    l.filter (fun x => x.country_name == e.country_name) = [e] := by
  induction l with
  | nil => cases he
  | cons a t ih =>
    have hnd' : a.country_name ∉ t.map (·.country_name) ∧
        (t.map (·.country_name)).Nodup := by
      rw [List.map_cons, List.nodup_cons] at hnd; exact hnd
    rcases List.mem_cons.1 he with rfl | het
    · rw [List.filter_cons_of_pos (by simp)]
      have : t.filter (fun x => x.country_name == e.country_name) = [] := by
        refine List.filter_eq_nil_iff.2 (fun x hx => ?_)
        simp only [beq_iff_eq]
        intro hEq
        apply hnd'.1
        rw [← hEq]
        exact List.mem_map_of_mem (·.country_name) hx
      rw [this]
    · have hne : a.country_name ≠ e.country_name := by
        intro hEq
        apply hnd'.1
        rw [hEq]
        exact List.mem_map_of_mem (·.country_name) het
      rw [List.filter_cons_of_neg (by simp [hne])]
      exact ih hnd'.2 het

/-- C8: every country the Normalizer emits has exactly 9 detailed pillars,
labelled in the fixed catalog order (First … Ninth Pillar); and in a store
loaded from that output (names being distinct), every countries row owns
exactly 9 pillar rows whose labels, in rowid order, are again the canonical
catalog sequence — never alphabetical. -/
theorem pillars_canonical (df : List Row) (out : List CountryJson) (db : DB)
    (h : processBatch df = some out)
    (hnd : (out.map (·.country_name)).Nodup)
    (hload : load_data_into_db emptyDB out = some db) :
    (∀ c ∈ out, c.detailed_pillars.map (·.pillar_name) = canonicalPillarNames ∧
      c.detailed_pillars.length = 9) ∧
    (∀ crow ∈ db.countries,
      (pilsOfC db crow.id).map (·.pillar_name) = canonicalPillarNames ∧
      (pilsOfC db crow.id).length = 9) := by
  have hpart1 : ∀ c ∈ out,
      c.detailed_pillars.map (·.pillar_name) = canonicalPillarNames := by
    intro c hc
    obtain ⟨r, hr, hbc⟩ := processBatch_mem h hc
    obtain ⟨rk, dims, -, -, rfl⟩ := buildCountry_eq_some hbc
    show (buildPillars r).map (·.pillar_name) = canonicalPillarNames
    rw [buildPillars, List.map_map]
    rfl
  have hlen : ∀ c ∈ out, c.detailed_pillars.length = 9 := by
    intro c hc
    calc c.detailed_pillars.length
        = (c.detailed_pillars.map (·.pillar_name)).length :=
          (List.length_map _ _).symm
      _ = canonicalPillarNames.length := by rw [hpart1 c hc]
      _ = 9 := rfl
  refine ⟨fun c hc => ⟨hpart1 c hc, hlen c hc⟩, ?_⟩
  intro crow hcrow
  obtain ⟨-, -, ⟨t, hct, htp⟩, -, -, hpils, -⟩ :=
    load_char out emptyDB db emptyDB_inv hload
  have hct' : db.countries = t := by simpa [emptyDB] using hct
  have hname : crow.name ∈ out.map (·.country_name) := (htp crow (hct' ▸ hcrow)).2.1
  rcases List.mem_map.1 hname with ⟨e, he, heq⟩
  have hfil : out.filter (fun x => x.country_name == crow.name) = [e] := by
    rw [← heq]
    exact filter_name_singleton hnd he
  have hp := hpils crow hcrow
  rw [hfil] at hp
  have hempty : (pilsOfC emptyDB crow.id).map pKey = [] := rfl
  rw [hempty, List.nil_append, List.flatMap_cons, List.flatMap_nil,
    List.append_nil] at hp
  have hnm : (pilsOfC db crow.id).map (·.pillar_name)
      = e.detailed_pillars.map (·.pillar_name) := by
    have h1 := congrArg (List.map Prod.fst) hp
    rw [List.map_map, List.map_map] at h1
    exact h1
  constructor
  · rw [hnm]
    exact hpart1 e he
  · calc (pilsOfC db crow.id).length
        = ((pilsOfC db crow.id).map (·.pillar_name)).length :=
          (List.length_map _ _).symm
      _ = canonicalPillarNames.length := by rw [hnm, hpart1 e he]
      _ = 9 := rfl

/-- C8 witness: the two-row frame `dfW`, its output `outW`, the loaded store
`dbW`, instantiated at the first output country and the first stored
country row. -/
theorem pillars_canonical_witness :
    (outW.headI.detailed_pillars.map (·.pillar_name) = canonicalPillarNames ∧
      outW.headI.detailed_pillars.length = 9) ∧
    ((pilsOfC dbW (dbW.countries.headI).id).map (·.pillar_name)
        = canonicalPillarNames ∧
      (pilsOfC dbW (dbW.countries.headI).id).length = 9) := by
  have h := pillars_canonical dfW outW dbW
    (eq_some_getD [] (by decide)) (by decide) (eq_some_getD emptyDB (by decide))
  exact ⟨h.1 outW.headI (headI_mem_of_ne_nil (by decide)),
    h.2 dbW.countries.headI (headI_mem_of_ne_nil (by decide))⟩

/-! ### C5 — leaderboard -/

/-- C5 counterexample: a 20-country store whose `adei_rank` column holds
1..18, 19, 19.  The bottom-10 list ends with two equal ranks, so it is not
strictly ascending by `adei_rank`, although the store holds 20 countries. -/
theorem leaderboard_counterexample :
    dbTie20.countries.length = 20 ∧
    (get_leaderboard_data dbTie20).2.map (·.adei_rank)
      = [11, 12, 13, 14, 15, 16, 17, 18, 19, 19] ∧
    ¬ List.Chain' (fun a b => a.adei_rank < b.adei_rank)
        (get_leaderboard_data dbTie20).2 := by
  refine ⟨by decide, by decide, ?_⟩
  intro hch
  have h2 := (List.chain'_map (fun c : CountryRowDB => c.adei_rank)).2 hch
  rw [show (get_leaderboard_data dbTie20).2.map (·.adei_rank)
      = [11, 12, 13, 14, 15, 16, 17, 18, 19, 19] from by decide] at h2
  simp only [List.chain'_cons, List.chain'_singleton] at h2
  omega

/-- C5 (amended): `top_10` carries the 10 smallest stored ranks in ascending
order and `bottom_10` the 10 largest; with at least 20 distinct country rows
the two lists share no row; `bottom_10` is always weakly ascending by
`adei_rank`, and strictly ascending whenever the stored ranks are pairwise
distinct (ties in `adei_rank` make it only weakly ascending). -/
theorem leaderboard_amended (db : DB) :
    ((get_leaderboard_data db).1).map (·.adei_rank)
        = (sortOn (fun q : ℤ => q) (db.countries.map (·.adei_rank))).take 10 ∧
    ((get_leaderboard_data db).2).map (·.adei_rank)
        = (sortOn (fun q : ℤ => q) (db.countries.map (·.adei_rank))).drop
            (db.countries.length - 10) ∧
    List.Pairwise (· ≤ ·) (((get_leaderboard_data db).2).map (·.adei_rank)) ∧
    (20 ≤ db.countries.length → db.countries.Nodup →
      ∀ c ∈ (get_leaderboard_data db).1, c ∉ (get_leaderboard_data db).2) ∧
    ((db.countries.map (·.adei_rank)).Nodup →
      List.Chain' (· < ·) (((get_leaderboard_data db).2).map (·.adei_rank))) := by
  have hsorted := sortOn_pairwise (fun c : CountryRowDB => c.adei_rank) db.countries
  have hmap : (sortOn (fun c : CountryRowDB => c.adei_rank) db.countries).map (·.adei_rank)
      = sortOn (fun q : ℤ => q) (db.countries.map (·.adei_rank)) :=
    sortOn_map (fun c : CountryRowDB => c.adei_rank) (fun q : ℤ => q)
      (fun c : CountryRowDB => c.adei_rank) (fun _ => rfl) db.countries
  have hlen : (sortOn (fun c : CountryRowDB => c.adei_rank) db.countries).length
      = db.countries.length := sortOn_length _ _
  have hdropsorted : ((sortOn (fun c : CountryRowDB => c.adei_rank) db.countries).drop
        ((sortOn (fun c : CountryRowDB => c.adei_rank) db.countries).length - 10)).Pairwise
      (fun x y => x.adei_rank ≤ y.adei_rank) :=
    hsorted.sublist (List.drop_sublist _ _)
  have hbot : (get_leaderboard_data db).2
      = (sortOn (fun c : CountryRowDB => c.adei_rank) db.countries).drop
          ((sortOn (fun c : CountryRowDB => c.adei_rank) db.countries).length - 10) := by
    rw [get_leaderboard_data]
    exact sortOn_eq_of_pairwise hdropsorted
  refine ⟨?top, ?bot, ?weak, ?disj, ?strict⟩
  case top =>
    rw [get_leaderboard_data]
    show ((sortOn (fun c : CountryRowDB => c.adei_rank) db.countries).take 10).map _ = _
    rw [List.map_take, hmap]
  case bot =>
    rw [hbot, List.map_drop, hmap, hlen]
  case weak =>
    rw [hbot]
    exact List.pairwise_map.2 hdropsorted
  case disj =>
    intro h20 hnd c hc1 hc2
    have hnd' : (sortOn (fun c : CountryRowDB => c.adei_rank) db.countries).Nodup :=
      (sortOn_perm _ db.countries).nodup_iff.2 hnd
    have hc1' : c ∈ (sortOn (fun c : CountryRowDB => c.adei_rank) db.countries).take 10 := by
      rw [get_leaderboard_data] at hc1
      exact hc1
    have hc2' : c ∈ (sortOn (fun c : CountryRowDB => c.adei_rank) db.countries).drop
        ((sortOn (fun c : CountryRowDB => c.adei_rank) db.countries).length - 10) := by
      rw [hbot] at hc2
      exact hc2
    exact List.disjoint_take_drop hnd' (by omega) hc1' hc2'
  case strict =>
    intro hndr
    have h1 : (((get_leaderboard_data db).2).map (·.adei_rank)).Pairwise (· ≤ ·) := by
      rw [hbot]
      exact List.pairwise_map.2 hdropsorted
    have h2 : (((get_leaderboard_data db).2).map (·.adei_rank)).Nodup := by
      rw [hbot, List.map_drop, hmap]
      have : (sortOn (fun q : ℤ => q) (db.countries.map (·.adei_rank))).Nodup :=
        (sortOn_perm _ _).nodup_iff.2 hndr
      exact this.sublist (List.drop_sublist _ _)
    refine List.Pairwise.chain' ?_
    exact (h1.and h2).imp (fun h => lt_of_le_of_ne h.1 h.2)

/-- C5 amended witness: the 20-country store with distinct ranks 1..20. -/
theorem leaderboard_amended_witness :
    (((get_leaderboard_data dbRanks20).1).map (·.adei_rank)
        = (sortOn (fun q : ℤ => q) (dbRanks20.countries.map (·.adei_rank))).take 10) ∧
    (∀ c ∈ (get_leaderboard_data dbRanks20).1,
        c ∉ (get_leaderboard_data dbRanks20).2) ∧
    List.Chain' (· < ·) (((get_leaderboard_data dbRanks20).2).map (·.adei_rank)) :=
  ⟨(leaderboard_amended dbRanks20).1,
   (leaderboard_amended dbRanks20).2.2.2.1 (by decide) (by decide),
   (leaderboard_amended dbRanks20).2.2.2.2 (by decide)⟩

/-! ### C6 — regional aggregation -/

theorem qadd_eq_add (a b : ℚ) : qadd a b = a + b := by
  have h1 : (a.den : ℚ) ≠ 0 := Nat.cast_ne_zero.2 a.den_nz
  have h2 : (b.den : ℚ) ≠ 0 := Nat.cast_ne_zero.2 b.den_nz
  conv_rhs => rw [← Rat.num_div_den a, ← Rat.num_div_den b]
  rw [div_add_div _ _ h1 h2, qadd, Rat.mkRat_eq_div]
  push_cast
  congr 1
  ring

theorem qsum_eq_sum (l : List ℚ) : qsum l = l.sum := by
  induction l with
  | nil => rfl
  | cons a t ih => rw [qsum, List.foldr_cons, List.sum_cons, ← ih, qadd_eq_add]; rfl

theorem ratMean_eq (l : List ℚ) : ratMean l = l.sum / l.length := by
  rw [ratMean, Rat.mkRat_eq_div]
  push_cast
  rw [← div_div, Rat.num_div_den, qsum_eq_sum]

theorem contains_eq_true_iff {l : List String} {a : String} :
    l.contains a = true ↔ a ∈ l := List.elem_iff

theorem dedupByKey_sub {α : Type} {key : α → String} :
    ∀ {seen : List String} {l : List α} {x : α},
      x ∈ dedupByKey key seen l → x ∈ l := by
  intro seen l
  induction l generalizing seen with
  | nil => intro x hx; cases hx
  | cons a t ih =>
    intro x hx
    rw [dedupByKey] at hx
    by_cases h : seen.contains (key a)
    · rw [if_pos h] at hx
      exact List.mem_cons_of_mem _ (ih hx)
    · rw [if_neg h] at hx
      rcases List.mem_cons.1 hx with rfl | hx'
      · exact List.mem_cons_self _ _
      · exact List.mem_cons_of_mem _ (ih hx')

theorem dedupByKey_covers {α : Type} {key : α → String} :
    ∀ {l : List α} {seen : List String} {x : α},
      x ∈ l → key x ∉ seen →
      ∃ y ∈ dedupByKey key seen l, key y = key x := by
  intro l
  induction l with
  | nil => intro seen x hx; cases hx
  | cons a t ih =>
    intro seen x hx hns
    rw [dedupByKey]
    by_cases h : seen.contains (key a)
    · rw [if_pos h]
      rcases List.mem_cons.1 hx with rfl | hx'
      · exact absurd (contains_eq_true_iff.1 h) hns
      · exact ih hx' hns
    · rw [if_neg h]
      rcases List.mem_cons.1 hx with rfl | hx'
      · exact ⟨x, List.mem_cons_self _ _, rfl⟩
      · by_cases hkey : key x = key a
        · exact ⟨a, List.mem_cons_self _ _, hkey.symm⟩
        · obtain ⟨y, hy, hyk⟩ := ih hx' (by
            intro hmem
            rcases List.mem_cons.1 hmem with hEq | hmem'
            · exact hkey hEq
            · exact hns hmem')
          exact ⟨y, List.mem_cons_of_mem _ hy, hyk⟩

theorem dedupByKey_nodup {α : Type} {key : α → String} :
    ∀ {l : List α} {seen : List String},
      ((dedupByKey key seen l).map key).Nodup ∧
      ∀ y ∈ dedupByKey key seen l, key y ∉ seen := by
  intro l
  induction l with
  | nil => intro seen; exact ⟨List.nodup_nil, fun y hy => absurd hy (List.not_mem_nil y)⟩
  | cons a t ih =>
    intro seen
    rw [dedupByKey]
    by_cases h : seen.contains (key a)
    · rw [if_pos h]
      exact ih
    · rw [if_neg h]
      obtain ⟨hnd, hseen⟩ := @ih (key a :: seen)
      refine ⟨?_, ?_⟩
      · rw [List.map_cons, List.nodup_cons]
        refine ⟨?_, hnd⟩
        intro hmem
        rcases List.mem_map.1 hmem with ⟨y, hy, hyk⟩
        exact (hseen y hy) (by rw [hyk]; exact List.mem_cons_self _ _)
      · intro y hy
        rcases List.mem_cons.1 hy with rfl | hy'
        · intro hmem
          exact h (contains_eq_true_iff.2 hmem)
        · intro hmem
          exact (hseen y hy') (List.mem_cons_of_mem _ hmem)

theorem mem_join_fst {db : DB} {c : CountryRowDB} :
    c ∈ (joinPillarsCountries db).map (·.1) ↔
      c ∈ db.countries ∧ ∃ p ∈ db.pillars, p.country_id = c.id := by
  constructor
  · intro hc
    rcases List.mem_map.1 hc with ⟨cp, hcp, rfl⟩
    rcases List.mem_flatMap.1 hcp with ⟨p, hp, hcp2⟩
    rcases List.mem_map.1 hcp2 with ⟨c', hc', hEq⟩
    have h1 : c' ∈ db.countries := List.mem_of_mem_filter hc'
    have h2 : c'.id = p.country_id := by simpa using List.of_mem_filter hc'
    rw [← hEq]
    exact ⟨h1, p, hp, h2.symm⟩
  · rintro ⟨hc, p, hp, hpc⟩
    refine List.mem_map.2 ⟨(c, p), ?_, rfl⟩
    refine List.mem_flatMap.2 ⟨p, hp, ?_⟩
    exact List.mem_map.2 ⟨c, List.mem_filter.2 ⟨hc, by simp [hpc]⟩, rfl⟩

theorem mem_adeiRowsOf {db : DB}
    (hnm : (db.countries.map (·.name)).Nodup) {c : CountryRowDB} :
    c ∈ adeiRowsOf db ↔
      c ∈ db.countries ∧ ∃ p ∈ db.pillars, p.country_id = c.id := by
  constructor
  · intro hc
    exact mem_join_fst.1 (dedupByKey_sub hc)
  · intro hc
    have hjoin : c ∈ (joinPillarsCountries db).map (·.1) := mem_join_fst.2 hc
    obtain ⟨y, hy, hyk⟩ := dedupByKey_covers hjoin (List.not_mem_nil _)
    have hy' : y ∈ db.countries := (mem_join_fst.1 (dedupByKey_sub hy)).1
    have : y = c := List.inj_on_of_nodup_map hnm hy' hc.1 hyk
    rw [← this]
    exact hy


/-- C6 counterexample: six GCC countries with `adei_score`s 1,0,0,0,0,0 each
holding one pillar row.  The aggregation reports `country_count = 6` but
`avg_adei = 0.2` — the mean rounded to one decimal — while the exact
arithmetic mean of the six scores is `1/6`. -/
theorem regional_agg_counterexample :
    (get_regional_aggregation dbGCC6).map
        (fun a => (a.region, a.avg_adei, a.country_count))
      = [("GCC", mkRat 1 5, 6)] ∧
    ratMean ((adeiRowsOf dbGCC6).map (fun c => (c.adei_score : ℚ))) = mkRat 1 6 ∧
    mkRat 1 5 ≠ mkRat 1 6 := by decide

/-- C6 (amended): a region appears in the output exactly when it has at
least one member country in the store (a country row with ≥ 1 pillar row);
its `country_count` is the exact member count, and its `avg_adei` is the
arithmetic mean of the members' `adei_score` *rounded to one decimal place*
(pandas `.round(1)`), not the exact mean. -/
theorem regional_agg_amended (db : DB)
    (hnm : (db.countries.map (·.name)).Nodup) (region : String) :
    ((∃ a ∈ get_regional_aggregation db, a.region = region) ↔
        regionMembers db region ≠ []) ∧
    (∀ a ∈ get_regional_aggregation db, a.region = region →
      a.country_count = (regionMembers db region).length ∧
      a.avg_adei = round1
        (((regionMembers db region).map (fun c => (c.adei_score : ℚ))).sum /
          ((regionMembers db region).length : ℚ))) := by
  have h1 : ((adeiRowsOf db).map (fun c : CountryRowDB => c.name)).Nodup := by
    rw [adeiRowsOf]
    exact dedupByKey_nodup.1
  have hrowsnd : (adeiRowsOf db).Nodup := h1.of_map
  have hmemiff : ∀ rg : String, ∀ c : CountryRowDB,
      c ∈ regionRowsOf db rg ↔ c ∈ regionMembers db rg := by
    intro rg c
    rw [regionRowsOf, regionMembers, List.mem_filter, List.mem_filter,
      mem_adeiRowsOf hnm]
    simp only [Bool.and_eq_true, List.any_eq_true, beq_iff_eq]
    constructor
    · rintro ⟨⟨hc, p, hp, hpc⟩, hr⟩
      exact ⟨hc, hr, p, hp, by rw [hpc]⟩
    · rintro ⟨hc, hr, p, hp, hpc⟩
      exact ⟨⟨hc, p, hp, by rw [hpc]⟩, hr⟩
  have hperm : ∀ rg : String, List.Perm (regionRowsOf db rg) (regionMembers db rg) := by
    intro rg
    refine (List.perm_ext_iff_of_nodup ?_ ?_).2 (hmemiff rg)
    · exact hrowsnd.filter _
    · exact (List.Nodup.of_map _ hnm).filter _
  constructor
  · constructor
    · rintro ⟨a, ha, har⟩
      rcases List.mem_map.1 ha with ⟨rg, hrg, rfl⟩
      have hrgeq : rg = region := har
      subst hrgeq
      rcases List.mem_map.1 (List.mem_dedup.1 hrg) with ⟨c, hc, hcr⟩
      have hcM : c ∈ regionMembers db rg := by
        rw [← hmemiff rg, regionRowsOf, List.mem_filter]
        exact ⟨hc, by simp [hcr]⟩
      exact List.ne_nil_of_mem hcM
    · intro hne
      obtain ⟨c, hc⟩ := List.exists_mem_of_length_pos (List.length_pos.2 hne)
      have hcF : c ∈ regionRowsOf db region := (hmemiff region c).2 hc
      have hc1 : c ∈ adeiRowsOf db := List.mem_of_mem_filter hcF
      have hc2 : get_country_region c.name = region := by
        have := List.of_mem_filter hcF
        simpa using this
      refine ⟨_, List.mem_map_of_mem _ (List.mem_dedup.2 ?_), rfl⟩
      rw [← hc2]
      exact List.mem_map_of_mem _ hc1
  · intro a ha har
    rcases List.mem_map.1 ha with ⟨rg, hrg, rfl⟩
    have hrgeq : rg = region := har
    subst hrgeq
    constructor
    · exact (hperm rg).length_eq
    · show round1 (ratMean ((regionRowsOf db rg).map (fun c => (c.adei_score : ℚ)))) = _
      rw [ratMean_eq]
      have hsum : ((regionRowsOf db rg).map (fun c => (c.adei_score : ℚ))).sum
          = ((regionMembers db rg).map (fun c => (c.adei_score : ℚ))).sum :=
        ((hperm rg).map _).sum_eq
      have hlenm : ((regionRowsOf db rg).map (fun c => (c.adei_score : ℚ))).length
          = (regionMembers db rg).length := by
        rw [List.length_map]
        exact (hperm rg).length_eq
      rw [hsum, hlenm]

/-- C6 amended witness: one GCC country with one pillar row. -/
theorem regional_agg_amended_witness :
    ((∃ a ∈ get_regional_aggregation dbQatar, a.region = "GCC") ↔
        regionMembers dbQatar "GCC" ≠ []) ∧
    (∀ a ∈ get_regional_aggregation dbQatar, a.region = "GCC" →
      a.country_count = (regionMembers dbQatar "GCC").length ∧
      a.avg_adei = round1
        (((regionMembers dbQatar "GCC").map (fun c => (c.adei_score : ℚ))).sum /
          ((regionMembers dbQatar "GCC").length : ℚ))) :=
  regional_agg_amended dbQatar (by decide) "GCC"

/-! ### C10 — strengths/weaknesses -/

theorem desc_reverse_sorted (S : List ℚ) :
    ((sortOn (fun q : ℚ => -q) S).reverse).Pairwise (· ≤ ·) := by
  rw [List.pairwise_reverse]
  exact (sortOn_pairwise (fun q : ℚ => -q) S).imp (fun h => neg_le_neg_iff.1 h)

theorem sortOn_asc_sorted (S : List ℚ) :
    List.Sorted (· ≤ ·) (sortOn (fun q : ℚ => q) S) := sortOn_pairwise _ S

theorem sortOn_asc_eq_reverse_desc (S : List ℚ) :
    sortOn (fun q : ℚ => q) S = (sortOn (fun q : ℚ => -q) S).reverse := by
  have hp : List.Perm (sortOn (fun q : ℚ => q) S)
      ((sortOn (fun q : ℚ => -q) S).reverse) :=
    (sortOn_perm _ S).trans
      (((List.reverse_perm (sortOn (fun q : ℚ => -q) S)).trans
        (sortOn_perm _ S)).symm)
  have hs2 : List.Sorted (· ≤ ·) ((sortOn (fun q : ℚ => -q) S).reverse) :=
    desc_reverse_sorted S
  exact List.eq_of_perm_of_sorted hp (sortOn_asc_sorted S) hs2

theorem sortOn_drop_eq_take (S : List ℚ) (n : ℕ) :
    sortOn (fun q : ℚ => q)
        ((sortOn (fun q : ℚ => -q) S).drop
          ((sortOn (fun q : ℚ => -q) S).length - n))
      = (sortOn (fun q : ℚ => q) S).take n := by
  have hA := sortOn_asc_eq_reverse_desc S
  have hdrop : (sortOn (fun q : ℚ => -q) S).drop
      ((sortOn (fun q : ℚ => -q) S).length - n)
      = (((sortOn (fun q : ℚ => -q) S).reverse.take n)).reverse := by
    have h := @List.rtake_eq_reverse_take_reverse _ (sortOn (fun q : ℚ => -q) S) n
    rw [List.rtake] at h
    exact h
  rw [hdrop, hA]
  have hp : List.Perm
      (sortOn (fun q : ℚ => q) (((sortOn (fun q : ℚ => -q) S).reverse.take n).reverse))
      ((sortOn (fun q : ℚ => -q) S).reverse.take n) :=
    (sortOn_perm _ _).trans (List.reverse_perm _)
  have hs2 : List.Sorted (· ≤ ·) ((sortOn (fun q : ℚ => -q) S).reverse.take n) :=
    (desc_reverse_sorted S).sublist (List.take_sublist _ _)
  exact List.eq_of_perm_of_sorted hp (sortOn_asc_sorted _) hs2

theorem getElem_mem_take {α : Type} (l : List α) {i n : ℕ} (hi : i < l.length)
    (hin : i < n) : l[i] ∈ l.take n := by
  have h1 : i < (l.take n).length := by
    rw [List.length_take]
    omega
  have h2 : (l.take n)[i] = l[i] := List.getElem_take l
  rw [← h2]
  exact List.getElem_mem h1

/-- C10 counterexample: the store `dbNoSubs` holds the country "A" with no
sub-indicator rows, so `m = 0 < 2·top_n`, yet both returned lists are empty
and no sub-indicator row appears in both — the claimed overlap fails at
`m = 0`. -/
theorem sw_counterexample :
    dbNoSubs.countries.any (fun c => c.name == "A") = true ∧
    (swBase "A" dbNoSubs).length = 0 ∧
    (swBase "A" dbNoSubs).length < 2 * 5 ∧
    get_country_strengths_weaknesses "A" dbNoSubs 5 = ([], []) ∧
    ¬ ∃ x, x ∈ (get_country_strengths_weaknesses "A" dbNoSubs 5).1 ∧
        x ∈ (get_country_strengths_weaknesses "A" dbNoSubs 5).2 := by
  refine ⟨by decide, by decide, by decide, by decide, ?_⟩
  rintro ⟨x, hx, -⟩
  rw [show (get_country_strengths_weaknesses "A" dbNoSubs 5).1 = [] from by decide]
    at hx
  cases hx

/-- C10 (amended): `strengths` carries the `min(top_n, m)` highest scores in
descending order and `weaknesses` the `min(top_n, m)` lowest in ascending
order; whenever `1 ≤ m < 2·top_n` the two lists share a row; and for a
country absent from the store both lists are empty (no exception — the
query is total).  The overlap claim requires `m ≥ 1`: at `m = 0` both lists
are empty. -/
theorem sw_amended (db : DB) (name : String) (n : ℕ) :
    ((get_country_strengths_weaknesses name db n).1).map (·.score)
        = (sortOn (fun q : ℚ => -q) ((swBase name db).map (·.score))).take n ∧
    ((get_country_strengths_weaknesses name db n).2).map (·.score)
        = (sortOn (fun q : ℚ => q) ((swBase name db).map (·.score))).take n ∧
    (1 ≤ (swBase name db).length → (swBase name db).length < 2 * n →
      ∃ x, x ∈ (get_country_strengths_weaknesses name db n).1 ∧
        x ∈ (get_country_strengths_weaknesses name db n).2) ∧
    ((∀ c ∈ db.countries, c.name ≠ name) →
      get_country_strengths_weaknesses name db n = ([], [])) := by
  have hmapSorted : (swSorted name db).map (·.score)
      = sortOn (fun q : ℚ => -q) ((swBase name db).map (·.score)) :=
    sortOn_map (fun r : SWRow => -r.score) (fun q : ℚ => -q)
      (fun r : SWRow => r.score) (fun _ => rfl) (swBase name db)
  refine ⟨?str, ?weak, ?overlap, ?absent⟩
  case str =>
    show ((swSorted name db).take n).map (·.score) = _
    rw [List.map_take, hmapSorted]
  case weak =>
    show (sortOn (fun r : SWRow => r.score)
        ((swSorted name db).drop ((swSorted name db).length - n))).map (·.score) = _
    rw [sortOn_map (fun r : SWRow => r.score) (fun q : ℚ => q)
      (fun r : SWRow => r.score) (fun _ => rfl), List.map_drop, hmapSorted]
    have hlen : (swSorted name db).length
        = (sortOn (fun q : ℚ => -q) ((swBase name db).map (·.score))).length := by
      rw [← hmapSorted, List.length_map]
    rw [hlen]
    exact sortOn_drop_eq_take ((swBase name db).map (·.score)) n
  case overlap =>
    intro hm h2n
    have hn1 : 1 ≤ n := by omega
    have hlen : (swSorted name db).length = (swBase name db).length :=
      sortOn_length _ _
    have hidx : (swBase name db).length - n < (swSorted name db).length := by
      omega
    refine ⟨(swSorted name db)[(swBase name db).length - n], ?_, ?_⟩
    · show _ ∈ (swSorted name db).take n
      exact getElem_mem_take _ hidx (by omega)
    · show _ ∈ sortOn (fun r : SWRow => r.score)
        ((swSorted name db).drop ((swSorted name db).length - n))
      rw [mem_sortOn, hlen]
      rw [List.drop_eq_getElem_cons hidx]
      exact List.mem_cons_self _ _
  case absent =>
    intro habs
    have hbase : swBase name db = [] := by
      refine List.flatMap_eq_nil_iff.2 (fun sp _ => ?_)
      refine List.flatMap_eq_nil_iff.2 (fun p _ => ?_)
      rw [show db.countries.filter
            (fun c => c.id == p.country_id && c.name == name) = [] from
          List.filter_eq_nil_iff.2 (fun c hc => by
            simp only [Bool.and_eq_true, beq_iff_eq]
            rintro ⟨-, hn⟩
            exact habs c hc hn)]
      rfl
    rw [get_country_strengths_weaknesses]
    rw [show swSorted name db = [] from by rw [swSorted, hbase]; rfl]
    rw [List.take_nil, List.length_nil, List.drop_nil]
    rfl

/-- C10 amended witness: "A" has 3 sub-indicators in `dbSubs3`; with
`top_n = 2` the lists overlap, and for the absent name "Z" both lists are
empty. -/
theorem sw_amended_witness :
    (1 ≤ (swBase "A" dbSubs3).length ∧ (swBase "A" dbSubs3).length < 2 * 2 ∧
      ∃ x, x ∈ (get_country_strengths_weaknesses "A" dbSubs3 2).1 ∧
        x ∈ (get_country_strengths_weaknesses "A" dbSubs3 2).2) ∧
    get_country_strengths_weaknesses "Z" dbSubs3 2 = ([], []) :=
  ⟨⟨by decide, by decide,
    (sw_amended dbSubs3 "A" 2).2.2.1 (by decide) (by decide)⟩,
   (sw_amended dbSubs3 "Z" 2).2.2.2 (by decide)⟩

end OIC
